import Mathlib

/-!
Verification of the edge-detection event pipeline
(`src/edge_detection/src/*.py`): zone geometry, stationary tracking,
parking-session lifecycle, red-light-violation deduplication, periodic
traffic sampling and retrying event delivery.

Conventions of the embedding:
* Python `float` values (positions, seconds) are modelled as `ℚ` with exact
  arithmetic; frame indices are `Int`; pixel counts and retry counts are `ℕ`.
* `datetime.now()` is passed in explicitly as a `now : ℚ` argument.
* `uuid.uuid4()` is modelled as a fresh natural number drawn from a counter
  stored in the tracker state.
* Python dicts are association lists with dict-faithful update semantics
  (`dictInsert` replaces the value of an existing key in place and appends a
  new key at the end, matching insertion-order iteration); Python sets of
  track ids are duplicate-free lists (`setAdd`).
* A Python statement that raises (`None < 0` is a `TypeError`) is modelled by
  `Except Unit`, with `.error ()` standing for the raised exception; state is
  returned unchanged there because the exception fires before any mutation.
* The Euclidean-distance test `sqrt(dx^2+dy^2) > eps` of the stationary
  tracker is embedded as the equivalent squared comparison
  `dx^2+dy^2 > eps^2` (equivalent for the configured `eps ≥ 0`).
-/

namespace EdgeDetection

/-- Dict-faithful insertion into an association list: an existing key keeps
its position and gets the new value, a new key is appended at the end. -/
def dictInsert {α β : Type} [BEq α] (m : List (α × β)) (k : α) (v : β) :
    List (α × β) :=
  if (m.lookup k).isSome then
    m.map (fun p => if p.1 == k then (k, v) else p)
  else m ++ [(k, v)]

/-- Python `set.add` on a duplicate-free list. -/
def setAdd (s : List Int) (x : Int) : List Int :=
  if s.contains x then s else s ++ [x]

/-- One per-frame object detection as produced by the external detector
(`yolo_processor.py` always stores the `track_id` key, with value `None`
when the tracker assigned no id).  Only the fields read by the embedded
components are kept: pixel center `cx, cy` and normalized center
`cx_norm, cy_norm`. -/
structure Detection where
  track_id : Option Int
  cx : ℚ
  cy : ℚ
  cx_norm : ℚ
  cy_norm : ℚ
deriving DecidableEq

/-! ### StationaryTracker (`stationary_tracker.py`) -/

/-- Per-track motion state (`self.track_state[track_id]`). -/
structure TrackState where
  last_x : ℚ
  last_y : ℚ
  stationary_start_frame : Int
deriving DecidableEq

/-- `StationaryTracker` state: configuration plus the per-track table. -/
structure StatState where
  epsilon_px : ℚ
  fps : ℚ
  track_state : List (Int × TrackState)
deriving DecidableEq

/-- Result dict of `StationaryTracker.update`; `stationary_start_frame` is
`none` in the `track_id is None` branch, which omits that key. -/
structure StatResult where
  is_stationary : Bool
  stationary_duration_sec : ℚ
  stationary_start_frame : Option Int
deriving DecidableEq

/-- `StationaryTracker.update(detection, frame_idx)`. -/
def StatState.update (s : StatState) (d : Detection) (frame_idx : Int) :
    StatResult × StatState :=
  match d.track_id with
  | none =>
      (⟨false, 0, none⟩, s)
  | some track_id =>
      match s.track_state.lookup track_id with
      | none =>
          -- first sighting: record position, mark moving with duration 0
          (⟨false, 0, some frame_idx⟩,
           { s with track_state :=
               dictInsert s.track_state track_id ⟨d.cx, d.cy, frame_idx⟩ })
      | some st =>
          -- squared form of `((cx-last_x)**2+(cy-last_y)**2)**0.5 > epsilon_px`
          let distSq := (d.cx - st.last_x) ^ 2 + (d.cy - st.last_y) ^ 2
          if s.epsilon_px ^ 2 < distSq then
            (⟨false, 0, some frame_idx⟩,
             { s with track_state :=
                 dictInsert s.track_state track_id ⟨d.cx, d.cy, frame_idx⟩ })
          else
            let stationary_frames := frame_idx - st.stationary_start_frame
            (⟨true, (stationary_frames : ℚ) / s.fps,
              some st.stationary_start_frame⟩, s)

/-! ### ParkingTracker (`parking_tracker.py`) -/

/-- An open parking session (`self.zone_tracked_ids[zone][track_id]`). -/
structure PSession where
  entry_time : ℚ
  event_id : ℕ
  missing_frames : ℕ
deriving DecidableEq

/-- An exit-cooldown record (`self.recent_exits[zone]` entry). -/
structure ExitRec where
  exit_time : ℚ
  event_id : ℕ
  track_id : Int
deriving DecidableEq

/-- `ParkingTracker` state; `next_id` models the `uuid4` source. -/
structure ParkState where
  exit_cooldown_sec : ℚ
  exit_debounce_frames : ℕ
  zone_tracked_ids : List (String × List (Int × PSession))
  seen_track_ids : List (String × List Int)
  recent_exits : List (String × List ExitRec)
  next_id : ℕ
deriving DecidableEq

/-- The zone-initialization block of `check_parking_entry` (lines 51-54 of
`parking_tracker.py`): create empty per-zone dicts for a new zone. -/
def initZone (s : ParkState) (zone_name : String) : ParkState :=
  { s with
    zone_tracked_ids := s.zone_tracked_ids ++ [(zone_name, [])],
    recent_exits := s.recent_exits ++ [(zone_name, [])],
    seen_track_ids := s.seen_track_ids ++ [(zone_name, [])] }

/-- The success block of `check_parking_entry` (lines 59-71): prune the
zone's exit-cooldown list, create the session with a fresh event id, and
mark the track as seen. -/
def recordEntry (s : ParkState) (zone_name : String) (track_id : Int) (now : ℚ) :
    ParkState :=
  { s with
    recent_exits := dictInsert s.recent_exits zone_name
      (((s.recent_exits.lookup zone_name).getD []).filter
        (fun e => now - e.exit_time < s.exit_cooldown_sec)),
    zone_tracked_ids := dictInsert s.zone_tracked_ids zone_name
      (dictInsert ((s.zone_tracked_ids.lookup zone_name).getD [])
        track_id ⟨now, s.next_id, 0⟩),
    seen_track_ids := dictInsert s.seen_track_ids zone_name
      (setAdd ((s.seen_track_ids.lookup zone_name).getD []) track_id),
    next_id := s.next_id + 1 }

/-- `ParkingTracker.check_parking_entry`.  `stationary_seconds` is optional
because the source guards `stationary_seconds is None`.  A detection whose
`track_id` is `None` reaches `track_id < 0` and raises (`.error`). -/
def check_parking_entry (s : ParkState) (zone_name : String) (detection : Detection)
    (stationary_seconds : Option ℚ) (parking_threshold_sec : ℚ) (now : ℚ) :
    Except Unit ((Bool × Option ℕ) × ParkState) :=
  match stationary_seconds with
  | none => .ok ((false, none), s)
  | some stat =>
    if stat < parking_threshold_sec then .ok ((false, none), s)
    else
      match detection.track_id with
      | none => .error ()
      | some track_id =>
        if track_id < 0 then .ok ((false, none), s)
        else
          let s1 :=
            if (s.zone_tracked_ids.lookup zone_name).isSome then s
            else initZone s zone_name
          if ((s1.seen_track_ids.lookup zone_name).getD []).contains track_id then
            .ok ((false, none), s1)
          else
            .ok ((true, some s1.next_id), recordEntry s1 zone_name track_id now)

/-- The `for track_id in list(...keys())` loop body of `check_parking_exit`:
returns (exit events, surviving sessions, appended cooldown records,
track ids removed from the seen set), in iteration order. -/
def processExit (current_track_ids : List Int) (debounce : ℕ) (now : ℚ) :
    List (Int × PSession) →
      List (ℕ × ℚ × Int) × List (Int × PSession) × List ExitRec × List Int
  | [] => ([], [], [], [])
  | (track_id, v) :: rest =>
    let mf := if current_track_ids.contains track_id then 0 else v.missing_frames + 1
    let r := processExit current_track_ids debounce now rest
    if debounce ≤ mf then
      let duration := now - v.entry_time
      let here := if (30 : ℚ) ≤ duration then [(v.event_id, duration, track_id)] else []
      (here ++ r.1, r.2.1, ⟨now, v.event_id, track_id⟩ :: r.2.2.1, track_id :: r.2.2.2)
    else
      (r.1, (track_id, { v with missing_frames := mf }) :: r.2.1, r.2.2.1, r.2.2.2)

set_option linter.unusedVariables false in
/-- `ParkingTracker.check_parking_exit`.  The `current_frame` parameter is
unused, as in the source.  A vehicle entry whose `track_id` is `None`
reaches `det.get("track_id", -1) >= 0` and raises (`.error`). -/
def check_parking_exit (s : ParkState) (zone_name : String)
    (vehicles_in_zone : List (Option Int)) (current_frame : Int) (now : ℚ) :
    Except Unit (List (ℕ × ℚ × Int) × ParkState) :=
  if (s.zone_tracked_ids.lookup zone_name).isSome then
    if vehicles_in_zone.contains none then .error ()
    else
      let current := (vehicles_in_zone.filterMap id).filter (fun t => 0 ≤ t)
      let sessions := (s.zone_tracked_ids.lookup zone_name).getD []
      let r := processExit current s.exit_debounce_frames now sessions
      .ok (r.1,
        { s with
          zone_tracked_ids := dictInsert s.zone_tracked_ids zone_name r.2.1,
          recent_exits := dictInsert s.recent_exits zone_name
            (((s.recent_exits.lookup zone_name).getD []) ++ r.2.2.1),
          seen_track_ids := dictInsert s.seen_track_ids zone_name
            (((s.seen_track_ids.lookup zone_name).getD []).filter
              (fun t => ¬ r.2.2.2.contains t)) })
  else .ok ([], s)

/-! ### RedLightViolationTracker (`red_light_violation_tracker.py`) -/

/-- Python `round` (banker's rounding, half to even). -/
def pyRound (q : ℚ) : Int :=
  if q - ⌊q⌋ < 1 / 2 then ⌊q⌋
  else if 1 / 2 < q - ⌊q⌋ then ⌊q⌋ + 1
  else if Even ⌊q⌋ then ⌊q⌋ else ⌊q⌋ + 1

/-- Python `int()` on a float: truncation toward zero. -/
def pyTrunc (q : ℚ) : Int := if 0 ≤ q then ⌊q⌋ else ⌈q⌉

/-- `RedLightViolationTracker.get_position_key`. -/
def get_position_key (detection : Detection) : Int × Int :=
  (pyRound (detection.cx / 50) * 50, pyRound (detection.cy / 50) * 50)

/-- A dedup record (`self.violations[track_id]`). -/
structure ViolationRec where
  violation_time : ℚ
  position_key : Int × Int
  violation_id : String
deriving DecidableEq

/-- `RedLightViolationTracker` state. -/
structure RLVState where
  cooldown_sec : ℚ
  violations : List (Int × ViolationRec)
  crossed_vehicles : List (Int × (Int × Int))
deriving DecidableEq

/-- `RedLightViolationTracker.check_violation`.  A detection whose
`track_id` is `None` reaches `track_id < 0` and raises (`.error`). -/
def check_violation (s : RLVState) (detection : Detection) (light_is_red : Bool)
    (vehicle_crossed_stop_line : Bool) (now : ℚ) :
    Except Unit ((Bool × Option String) × RLVState) :=
  match detection.track_id with
  | none => .error ()
  | some track_id =>
    if track_id < 0 then .ok ((false, none), s)
    else
      let pos_key := get_position_key detection
      let kept := s.violations.filter (fun p => now - p.2.violation_time < s.cooldown_sec)
      let s1 := { s with violations := kept }
      let crossedAdd := dictInsert s1.crossed_vehicles track_id pos_key
      let crossedDel := s1.crossed_vehicles.filter (fun p => p.1 ≠ track_id)
      if light_is_red then
        if vehicle_crossed_stop_line then
          let s2 := { s1 with crossed_vehicles := crossedAdd }
          if (s2.violations.lookup track_id).isSome then .ok ((false, none), s2)
          else
            let violation_id :=
              toString track_id ++ "_" ++ toString (pyTrunc (now * 1000))
            let recorded := dictInsert s2.violations track_id ⟨now, pos_key, violation_id⟩
            .ok ((true, some violation_id), { s2 with violations := recorded })
        else
          .ok ((false, none), { s1 with crossed_vehicles := crossedDel })
      else
        if vehicle_crossed_stop_line then
          .ok ((false, none), { s1 with crossed_vehicles := crossedAdd })
        else
          .ok ((false, none), { s1 with crossed_vehicles := crossedDel })

/-! ### TrafficMonitoringTracker (`traffic_monitoring_tracker.py`) -/

/-- `TrafficMonitoringTracker` state. -/
structure TMState where
  interval_frames : Int
  last_event_frame : List (String × Int)
deriving DecidableEq

/-- `TrafficMonitoringTracker.should_send_event`. -/
def should_send_event (s : TMState) (camera_id : String)
    (current_frame_number : Int) : Bool × TMState :=
  let m0 :=
    if (s.last_event_frame.lookup camera_id).isSome then s.last_event_frame
    else s.last_event_frame ++ [(camera_id, 0)]
  let last_frame := (m0.lookup camera_id).getD 0
  let frames_since_last := current_frame_number - last_frame
  if s.interval_frames ≤ frames_since_last then
    (true, { s with last_event_frame := dictInsert m0 camera_id current_frame_number })
  else
    (false, { s with last_event_frame := m0 })

/-! ### BackendSender (`backend_sender.py`) -/

/-- The retry loop of `BackendSender.send_event`.  The backend is an oracle
from attempt number to an optional HTTP status (`none` = request raised a
network error).  Returns (success, number of POST attempts performed, the
backoff sleeps performed, in order).  `k` is the number of remaining loop
iterations, `attempt` the current 1-based attempt number. -/
def sendGo (backend : ℕ → Option ℕ) (max_retries : ℕ) :
    ℕ → ℕ → Bool × ℕ × List ℕ
  | 0, _ => (false, 0, [])
  | k + 1, attempt =>
    let ok : Bool :=
      match backend attempt with
      | some status => status == 200 || status == 201
      | none => false
    if ok then (true, 1, [])
    else
      let rest := sendGo backend max_retries k (attempt + 1)
      let sleeps :=
        if attempt < max_retries then min (2 ^ (attempt - 1)) 10 :: rest.2.2
        else rest.2.2
      (rest.1, rest.2.1 + 1, sleeps)

/-- `BackendSender.send_event` against a backend oracle: the loop
`for attempt in range(1, max_retries + 1)`. -/
def send_event (backend : ℕ → Option ℕ) (max_retries : ℕ) : Bool × ℕ × List ℕ :=
  sendGo backend max_retries max_retries 1

/-! ### ZoneDetector (`zone_detector.py`) -/

/-- `ZoneDetector.point_in_polygon`: ray casting with the source's literal
`1e-9` guard added to the edge's `y`-span denominator. -/
def point_in_polygon (point : ℚ × ℚ) (polygon : List (ℚ × ℚ)) : Bool :=
  let n := polygon.length
  (List.range n).foldl
    (fun inside i =>
      let p1 := polygon.getD i (0, 0)
      let p2 := polygon.getD ((i + 1) % n) (0, 0)
      if (decide (point.2 < p1.2) != decide (point.2 < p2.2)) &&
          decide (point.1 <
            (p2.1 - p1.1) * (point.2 - p1.2) / (p2.2 - p1.2 + 1 / 1000000000) + p1.1)
      then !inside else inside)
    false

/-- One parsed zone of `self.polygons[camera_id]` (the `"type"` field is
called `ztype` because `type` is reserved in Lean). -/
structure Zone where
  name : String
  ztype : String
  polygon : List (ℚ × ℚ)
deriving DecidableEq

/-- `ZoneDetector.get_vehicle_zones` for one camera's parsed zone list:
every zone whose polygon contains the detection's normalized center. -/
def get_vehicle_zones (zones : List Zone) (detection : Detection) : List Zone :=
  zones.filter (fun z => point_in_polygon (detection.cx_norm, detection.cy_norm) z.polygon)

/-- Appending a detection to a zone's bucket in the result dict. -/
def bucketAdd (m : List (String × List Detection)) (k : String) (d : Detection) :
    List (String × List Detection) :=
  match m.lookup k with
  | some l => dictInsert m k (l ++ [d])
  | none => m ++ [(k, [d])]

/-- `ZoneDetector.get_detections_in_any_zone_of_type` for one camera:
group detections by zone name, keeping only zones of the requested type. -/
def get_detections_in_any_zone_of_type (zones : List Zone)
    (detections : List Detection) (zone_type : String) :
    List (String × List Detection) :=
  detections.foldl
    (fun acc det =>
      (get_vehicle_zones zones det).foldl
        (fun acc2 z => if z.ztype = zone_type then bucketAdd acc2 z.name det else acc2)
        acc)
    []

/-- `ZoneDetector.is_point_before_line`: cross-product side test in pixel
space; fewer than two line points returns `true` ("before" the line).
The `None`-guards of the source are vacuous here because coordinates are
total `ℚ` values. -/
def is_point_before_line (point : ℚ × ℚ) (line_coords : List (ℚ × ℚ))
    (img_h img_w : ℚ) : Bool :=
  if line_coords.length < 2 then true
  else
    let a := line_coords.getD 0 (0, 0)
    let b := line_coords.getD 1 (0, 0)
    let px := point.1 * img_w
    let py := point.2 * img_h
    decide ((px - a.1 * img_w) * (b.2 * img_h - a.2 * img_h) -
            (py - a.2 * img_h) * (b.1 * img_w - a.1 * img_w) < 0)

/-- `ZoneDetector.is_past_stop_line`: normalize the center the way the
source does (`cx / img_w if cx > 1 else cx`) and negate the side test. -/
def is_past_stop_line (detection : Detection) (stop_line_coords : List (ℚ × ℚ))
    (img_h img_w : ℚ) : Bool :=
  let x_norm := if 1 < detection.cx then detection.cx / img_w else detection.cx
  let y_norm := if 1 < detection.cy then detection.cy / img_h else detection.cy
  ! is_point_before_line (x_norm, y_norm) stop_line_coords img_h img_w

/-! ### TrafficLightDetector (`traffic_light_detector.py`) -/

/-- The state-decision tail of `TrafficLightDetector.detect_light_state`,
taking the three per-color mask pixel counts (the HSV mask counting itself
is OpenCV territory, outside the embedding).  Returns (state, confidence). -/
def detect_light_state (red_pixels green_pixels yellow_pixels : ℕ) : String × ℚ :=
  let total_pixels := red_pixels + green_pixels + yellow_pixels
  if total_pixels = 0 then ("unknown", 0)
  else
    let max_pixels := max red_pixels (max green_pixels yellow_pixels)
    if max_pixels = red_pixels then
      ("red", (red_pixels : ℚ) / (total_pixels : ℚ))
    else if max_pixels = green_pixels then
      ("green", (green_pixels : ℚ) / (total_pixels : ℚ))
    else
      ("yellow", (yellow_pixels : ℚ) / (total_pixels : ℚ))

/-! ### Run harnesses: sequences of calls against the stateful trackers -/

/-- The remembered last-emission frame for a camera (`0` initially). -/
def lastOf (s : TMState) (cam : String) : Int :=
  (s.last_event_frame.lookup cam).getD 0

/-- Poll `should_send_event` once per listed frame, pairing each frame with
its result. -/
def tmRunP (cam : String) : TMState → List Int → List (Int × Bool) × TMState
  | s, [] => ([], s)
  | s, f :: fs =>
    let r := should_send_event s cam f
    let rest := tmRunP cam r.2 fs
    ((f, r.1) :: rest.1, rest.2)

/-- The boolean component of a `check_violation` outcome (`false` when the
call raised). -/
def violationFlag : Except Unit ((Bool × Option String) × RLVState) → Bool
  | .ok ((b, _), _) => b
  | .error _ => false

/-- The post-state of a `check_violation` outcome (unchanged on a raise). -/
def violationState (s₀ : RLVState) :
    Except Unit ((Bool × Option String) × RLVState) → RLVState
  | .ok (_, s) => s
  | .error _ => s₀

/-- Call `check_violation` once per listed time with the light red and the
vehicle past the stop line throughout. -/
def rlvRun (d : Detection) : RLVState → List ℚ → List Bool × RLVState
  | s, [] => ([], s)
  | s, t :: ts =>
    let r := check_violation s d true true t
    let rest := rlvRun d (violationState s r) ts
    (violationFlag r :: rest.1, rest.2)

/-- The entry flag of a `check_parking_entry` outcome (`false` on a raise). -/
def pentryFlag : Except Unit ((Bool × Option ℕ) × ParkState) → Bool
  | .ok ((b, _), _) => b
  | .error _ => false

/-- The post-state of a `check_parking_entry` outcome. -/
def pentryState (s₀ : ParkState) :
    Except Unit ((Bool × Option ℕ) × ParkState) → ParkState
  | .ok (_, s) => s
  | .error _ => s₀

/-- The exit-event list of a `check_parking_exit` outcome. -/
def pexitList : Except Unit (List (ℕ × ℚ × Int) × ParkState) → List (ℕ × ℚ × Int)
  | .ok (l, _) => l
  | .error _ => []

/-- The post-state of a `check_parking_exit` outcome. -/
def pexitState (s₀ : ParkState) :
    Except Unit (List (ℕ × ℚ × Int) × ParkState) → ParkState
  | .ok (_, s) => s
  | .error _ => s₀

/-- One call against the `ParkingTracker`, with all its arguments. -/
inductive POp where
  | entry (zone_name : String) (detection : Detection)
      (stationary_seconds : Option ℚ) (parking_threshold_sec : ℚ) (now : ℚ)
  | exitCall (zone_name : String) (vehicles_in_zone : List (Option Int))
      (current_frame : Int) (now : ℚ)

/-- State transition of one `ParkingTracker` call (state kept on a raise,
matching Python, where the exception fires before any mutation). -/
def pstep (s : ParkState) : POp → ParkState
  | .entry z d stat thr now => pentryState s (check_parking_entry s z d stat thr now)
  | .exitCall z vs cf now => pexitState s (check_parking_exit s z vs cf now)

/-- The is-new-entry result of a `ParkingTracker` call (`false` for exits). -/
def entryRes (s : ParkState) : POp → Bool
  | .entry z d stat thr now => pentryFlag (check_parking_entry s z d stat thr now)
  | .exitCall _ _ _ _ => false

/-- The seen-track-id set of a zone. -/
def seenOf (s : ParkState) (z : String) : List Int :=
  (s.seen_track_ids.lookup z).getD []

/-- Reachable-state shape: a zone is tracked iff it has a seen set (the
three per-zone dicts are always created together). -/
def PWF (s : ParkState) : Prop :=
  ∀ z, (s.zone_tracked_ids.lookup z).isSome ↔ (s.seen_track_ids.lookup z).isSome

/-- Per-zone session tables have no duplicate track-id keys. -/
def SessionsNodup (s : ParkState) : Prop :=
  ∀ z l, s.zone_tracked_ids.lookup z = some l → (l.map Prod.fst).Nodup

/-- The call is a `check_parking_exit` on zone `z`. -/
def isExitOn (z : String) : POp → Prop
  | .exitCall w _ _ _ => w = z
  | .entry _ _ _ _ _ => False

/-- The call is a `check_parking_entry` on zone `z` for track `tid`. -/
def isEntryOn (z : String) (tid : Int) : POp → Prop
  | .entry w d _ _ _ => w = z ∧ d.track_id = some tid
  | .exitCall _ _ _ _ => False

/-- Fixture: a fresh `ParkingTracker` with `exit_cooldown_sec = 10` and
`exit_debounce_frames = 1`. -/
def pcex0 : ParkState := ⟨10, 1, [], [], [], 0⟩

/-- Fixture: a tracked detection with id 5. -/
def pcexDet : Detection := ⟨some 5, 0, 0, 0, 0⟩

/-- Fixture: the tracker right after an entry of track 5 into zone `"z"`
(entry threshold 5 s, stationary 6 s, at time 0). -/
def pcexS1 : ParkState :=
  pentryState pcex0 (check_parking_entry pcex0 "z" pcexDet (some 6) 5 0)

/-- Fixture: the same tracker state written out literally: one open session
(track 5, entry time 0, event id 0) in zone `"z"`, debounce 1. -/
def pw0 : ParkState := ⟨10, 1, [("z", [(5, ⟨0, 0, 0⟩)])], [("z", [5])], [("z", [])], 1⟩

/-! ## Association-list (Python dict / set) lemmas -/

theorem lookup_append {α β : Type} [BEq α] (l₁ l₂ : List (α × β)) (k : α) :
    (l₁ ++ l₂).lookup k = ((l₁.lookup k).or (l₂.lookup k)) := by
  induction l₁ with
  | nil => simp
  | cons p l ih =>
      cases p with
      | mk a b =>
          rw [List.cons_append, List.lookup_cons, List.lookup_cons]
          cases h : k == a <;> simp [h, ih]

theorem lookup_isSome_iff {α β : Type} [BEq α] [LawfulBEq α]
    (m : List (α × β)) (k : α) :
    (m.lookup k).isSome ↔ k ∈ m.map Prod.fst := by
  induction m with
  | nil => simp
  | cons p l ih =>
      cases p with
      | mk a b =>
          rw [List.lookup_cons]
          cases h : k == a
          · simp only [List.map_cons, List.mem_cons]
            have : k ≠ a := by simpa using beq_eq_false_iff_ne.mp h
            simp [this, ih]
          · have : k = a := by simpa using h
            simp [this]

theorem lookup_dictInsert_self {α β : Type} [BEq α] [LawfulBEq α]
    (m : List (α × β)) (k : α) (v : β) :
    (dictInsert m k v).lookup k = some v := by
  unfold dictInsert
  split
  case isTrue h =>
    induction m with
    | nil => simp at h
    | cons p l ih =>
        cases p with
        | mk a b =>
            by_cases hk : (a == k) = true
            · simp [List.lookup_cons, hk]
            · have hk' : (k == a) = false := by
                have : a ≠ k := by simpa using hk
                exact beq_eq_false_iff_ne.mpr (Ne.symm this)
              have h' : (l.lookup k).isSome := by
                rw [List.lookup_cons] at h
                simpa [hk'] using h
              simp only [List.map_cons, if_neg hk, List.lookup_cons, hk']
              exact ih h'
  case isFalse h =>
    have hm : m.lookup k = none := by
      cases hm : m.lookup k with
      | none => rfl
      | some v' => rw [hm] at h; simp at h
    rw [lookup_append, hm]
    simp [List.lookup_cons]

theorem lookup_map_replace {α β : Type} [BEq α] [LawfulBEq α]
    (k k' : α) (v : β) (h : k' ≠ k) :
    ∀ m : List (α × β),
      (m.map (fun p => if p.1 == k then (k, v) else p)).lookup k' = m.lookup k'
  | [] => by simp
  | (a, b) :: l => by
      by_cases hk : (a == k) = true
      · have ha : a = k := by simpa using hk
        have h1 : (k' == k) = false := beq_eq_false_iff_ne.mpr h
        simp [List.lookup_cons, hk, ha, h1, lookup_map_replace k k' v h l]
      · simp only [List.map_cons, if_neg hk, List.lookup_cons]
        cases hka : k' == a <;> simp [hka, lookup_map_replace k k' v h l]

theorem lookup_dictInsert_ne {α β : Type} [BEq α] [LawfulBEq α]
    (m : List (α × β)) (k k' : α) (v : β) (h : k' ≠ k) :
    (dictInsert m k v).lookup k' = m.lookup k' := by
  unfold dictInsert
  split
  case isTrue _ => exact lookup_map_replace k k' v h m
  case isFalse _ =>
    rw [lookup_append]
    have h1 : (k' == k) = false := beq_eq_false_iff_ne.mpr h
    cases hm : m.lookup k' <;> simp [hm, List.lookup_cons, h1]

theorem keys_dictInsert_of_mem {α β : Type} [BEq α] [LawfulBEq α]
    (m : List (α × β)) (k : α) (v : β) (h : (m.lookup k).isSome) :
    (dictInsert m k v).map Prod.fst = m.map Prod.fst := by
  unfold dictInsert
  rw [if_pos h, List.map_map, List.map_congr_left]
  intro p _
  by_cases hk : (p.1 == k) = true
  · simp [hk, (by simpa using hk : p.1 = k)]
  · simp [hk]

theorem nodup_keys_dictInsert {α β : Type} [BEq α] [LawfulBEq α]
    (m : List (α × β)) (k : α) (v : β) (h : (m.map Prod.fst).Nodup) :
    ((dictInsert m k v).map Prod.fst).Nodup := by
  by_cases hs : (m.lookup k).isSome
  · rw [keys_dictInsert_of_mem m k v hs]; exact h
  · unfold dictInsert
    rw [if_neg hs, List.map_append]
    have hk : k ∉ m.map Prod.fst := fun hmem =>
      hs ((lookup_isSome_iff m k).mpr hmem)
    simp only [List.map_cons, List.map_nil]
    rw [List.nodup_append]
    refine ⟨h, List.nodup_singleton k, ?_⟩
    intro a ha hmem
    rw [List.mem_singleton] at hmem
    subst hmem
    exact hk ha

theorem mem_setAdd (s : List Int) (x y : Int) : y ∈ setAdd s x ↔ y ∈ s ∨ y = x := by
  unfold setAdd
  split
  case isTrue h =>
    have hx : x ∈ s := List.elem_iff.mp h
    constructor
    · exact Or.inl
    · rintro (hy | rfl)
      · exact hy
      · exact hx
  case isFalse _ => simp

/-! ## C10 -/

/-- C10: `detect_light_state` breaks ties in the fixed order red, green,
yellow: with not-all-zero counts, if red's count equals the maximum the
state is `"red"`; if green and yellow tie for the maximum and red is
strictly lower, the state is `"green"`. -/
theorem light_state_tie_break :
    (∀ r g y : ℕ, r + g + y ≠ 0 → max r (max g y) = r →
        (detect_light_state r g y).1 = "red") ∧
    (∀ r g y : ℕ, g = y → r < g → (detect_light_state r g y).1 = "green") := by
  constructor
  · intro r g y htot hmax
    simp [detect_light_state, htot, hmax]
  · intro r g y hgy hr
    subst hgy
    have htot : r + g + g ≠ 0 := by omega
    simp [detect_light_state, htot, hr.not_le, hr.le, hr.ne']

/-- Witness for `light_state_tie_break` at concrete pixel counts. -/
theorem light_state_tie_break_witness :
    (detect_light_state 5 5 5).1 = "red" ∧ (detect_light_state 2 7 7).1 = "green" :=
  ⟨light_state_tie_break.1 5 5 5 (by decide) (by decide),
   light_state_tie_break.2 2 7 7 rfl (by decide)⟩

/-! ## C7 -/

theorem sendGo_all_fail (backend : ℕ → Option ℕ) (mr : ℕ) :
    ∀ k a : ℕ, 1 ≤ a → a + k = mr + 1 →
      (∀ j, a ≤ j → j < a + k → ∀ st, backend j = some st → ¬ (200 ≤ st ∧ st < 300)) →
      sendGo backend mr k a =
        (false, k, (List.range (k - 1)).map (fun i => min (2 ^ (a - 1 + i)) 10)) := by
  intro k
  induction k with
  | zero => intro a _ _ _; simp [sendGo]
  | succ n ih =>
      intro a ha1 ha hfail
      have hfa : ∀ st, backend a = some st → ¬ (200 ≤ st ∧ st < 300) :=
        hfail a le_rfl (by omega)
      have hok : (match backend a with
          | some status => status == 200 || status == 201
          | none => false) = false := by
        cases hb : backend a with
        | none => rfl
        | some st =>
            have h1 : st ≠ 200 := fun h => hfa st hb (by omega)
            have h2 : st ≠ 201 := fun h => hfa st hb (by omega)
            simp [h1, h2]
      have hrest := ih (a + 1) (by omega) (by omega)
        (fun j h1 h2 st hb => hfail j (by omega) (by omega) st hb)
      rw [sendGo]
      simp only [hok, Bool.false_eq_true, if_false]
      rw [hrest]
      by_cases hlast : a < mr
      · have hn : 0 < n := by omega
        rw [if_pos hlast]
        simp only [Prod.mk.injEq]
        refine ⟨trivial, trivial, ?_⟩
        have h2 : n + 1 - 1 = (n - 1) + 1 := by omega
        rw [h2, List.range_succ_eq_map, List.map_cons, List.map_map]
        congr 1
        refine List.map_congr_left ?_
        intro i _
        simp only [Function.comp_apply]
        have he : a - 1 + Nat.succ i = a + 1 - 1 + i := by omega
        rw [he]
      · have hn : n = 0 := by omega
        subst hn
        rw [if_neg hlast]
        simp

/-- C7: `send_event` against a backend answering non-2xx on every attempt
performs exactly `max_retries` POST attempts, returns `false`, and sleeps
`min(2^(attempt-1), 10)` seconds after each non-final failed attempt;
against a backend failing the first attempt and answering 200 on the
second it performs exactly 2 attempts, returns `true`, and sleeps 1 s. -/
theorem send_event_retry_spec :
    (∀ (backend : ℕ → Option ℕ) (max_retries : ℕ),
        (∀ a, 1 ≤ a → a ≤ max_retries → ∀ st, backend a = some st →
            ¬ (200 ≤ st ∧ st < 300)) →
        send_event backend max_retries =
          (false, max_retries,
            (List.range (max_retries - 1)).map (fun i => min (2 ^ i) 10))) ∧
    (∀ (backend : ℕ → Option ℕ) (max_retries : ℕ),
        2 ≤ max_retries →
        (∀ st, backend 1 = some st → ¬ (200 ≤ st ∧ st < 300)) →
        backend 2 = some 200 →
        send_event backend max_retries = (true, 2, [1])) := by
  constructor
  · intro backend mr hfail
    unfold send_event
    rw [sendGo_all_fail backend mr mr 1 le_rfl (by omega)
      (fun j h1 h2 st hb => hfail j h1 (by omega) st hb)]
    simp
  · intro backend mr hmr hfail1 hok2
    unfold send_event
    obtain ⟨n, hn⟩ : ∃ n, mr = n + 2 := ⟨mr - 2, by omega⟩
    subst hn
    have hok : (match backend 1 with
        | some status => status == 200 || status == 201
        | none => false) = false := by
      cases hb : backend 1 with
      | none => rfl
      | some st =>
          have h1 : st ≠ 200 := fun h => hfail1 st hb (by omega)
          have h2 : st ≠ 201 := fun h => hfail1 st hb (by omega)
          simp [h1, h2]
    rw [sendGo]
    simp only [hok, if_false]
    rw [sendGo]
    simp [hok2, show (1 : ℕ) < n + 2 by omega]

/-- Witness for `send_event_retry_spec` at concrete backends. -/
theorem send_event_retry_spec_witness :
    send_event (fun _ => some 500) 5 = (false, 5, [1, 2, 4, 8]) ∧
    send_event (fun a => if a = 1 then none else some 200) 4 = (true, 2, [1]) :=
  ⟨by rw [send_event_retry_spec.1 (fun _ => some 500) 5
        (fun a _ _ st hb => by simp at hb; omega)]; decide,
   send_event_retry_spec.2 (fun a => if a = 1 then none else some 200) 4
     (by decide) (fun st hb => by simp at hb) (by decide)⟩

/-! ## C9 -/

/-- C9 counterexample: a degenerate two-vertex "polygon" CAN be matched.
The `1e-9` epsilon in the ray-casting denominator makes the two opposite
traversals of the single edge compute different intersection abscissas,
and a point strictly between them gets an odd crossing count.  When the
edge's `y`-span is comparable to the epsilon the two abscissas differ
macroscopically: for the segment from `(0, 0)` to `(1, 2⁻²⁸)` at height
`2⁻²⁹` they are `≈ 0.3942` (forward traversal, denominator
`2⁻²⁸ + 10⁻⁹`) and `≈ 0.3165` (reverse traversal, denominator
`-2⁻²⁸ + 10⁻⁹`), so the point `x = 3/8` toggles on the first edge only.
The gap `≈ 0.078` is about `10¹⁵` double ulps, so the source's IEEE-double
arithmetic computes the same `True` — this is real program behavior, not
an artifact of the exact-rational model. -/
theorem point_in_polygon_two_vertex_cex :
    point_in_polygon (3 / 8, 1 / 536870912) [(0, 0), (1, 1 / 268435456)] = true := by
  simp [point_in_polygon, List.range_succ]
  norm_num

/-- C9 (amended): polygons with fewer than TWO vertices are never matched
(a nearly-horizontal two-vertex polygon can be matched, see
`point_in_polygon_two_vertex_cex`), and the stop-line side test on a line
with fewer than 2 points never reports a point as past the line; neither
raises an error (both are total). -/
theorem degenerate_zone_never_matched :
    (∀ (p : ℚ × ℚ) (poly : List (ℚ × ℚ)), poly.length ≤ 1 →
        point_in_polygon p poly = false) ∧
    (∀ (d : Detection) (line : List (ℚ × ℚ)) (h w : ℚ), line.length < 2 →
        is_past_stop_line d line h w = false) := by
  constructor
  · intro p poly hlen
    match poly, hlen with
    | [], _ => rfl
    | [a], _ =>
        simp [point_in_polygon, List.range_succ]
  · intro d line h w hl
    have : line.length < 2 := hl
    simp [is_past_stop_line, is_point_before_line, this]

/-- Witness for `degenerate_zone_never_matched` at concrete inputs. -/
theorem degenerate_zone_never_matched_witness :
    point_in_polygon (1 / 2, 1 / 2) [(0, 0)] = false ∧
    is_past_stop_line ⟨some 1, 1 / 2, 1 / 2, 0, 0⟩ [(0, 0)] 720 1280 = false :=
  ⟨degenerate_zone_never_matched.1 (1 / 2, 1 / 2) [(0, 0)] (by decide),
   degenerate_zone_never_matched.2 ⟨some 1, 1 / 2, 1 / 2, 0, 0⟩ [(0, 0)] 720 1280
     (by decide)⟩

/-! ## C5 -/

/-- C5 counterexample: a detection whose track id is absent (`None`) is NOT
ignored by `RedLightViolationTracker.check_violation`: the call raises a
`TypeError` (Python evaluates `None < 0`), modelled as `.error ()`, instead
of returning the no-event result `(False, None)`. -/
theorem none_track_raises_cex :
    check_violation ⟨30, [], []⟩ ⟨none, 0, 0, 0, 0⟩ true true 0 = .error () := rfl

/-- C5 (amended): `StationaryTracker.update` ignores a `None` track id
(no-event result, state unchanged, no error); `check_parking_entry` with a
`None` track id raises once the stationary threshold is met and returns
the no-event result (state unchanged) below it; `check_violation` with a
`None` track id always raises; both tracker entry points treat a negative
integer id (the `-1` sentinel for a missing key) as invalid and return the
no-event result with the state unchanged. -/
theorem none_track_handling :
    (∀ (s : StatState) (cx cy cxn cyn : ℚ) (frame : Int),
        StatState.update s ⟨none, cx, cy, cxn, cyn⟩ frame = (⟨false, 0, none⟩, s)) ∧
    (∀ (s : ParkState) (z : String) (d : Detection) (stat thr now : ℚ),
        d.track_id = none → thr ≤ stat →
        check_parking_entry s z d (some stat) thr now = .error ()) ∧
    (∀ (s : ParkState) (z : String) (d : Detection) (stat thr now : ℚ),
        d.track_id = none → stat < thr →
        check_parking_entry s z d (some stat) thr now = .ok ((false, none), s)) ∧
    (∀ (s : RLVState) (d : Detection) (red crossed : Bool) (now : ℚ),
        d.track_id = none → check_violation s d red crossed now = .error ()) ∧
    (∀ (s : ParkState) (z : String) (d : Detection) (stat thr now : ℚ) (t : Int),
        d.track_id = some t → t < 0 →
        check_parking_entry s z d (some stat) thr now = .ok ((false, none), s)) ∧
    (∀ (s : RLVState) (d : Detection) (red crossed : Bool) (now : ℚ) (t : Int),
        d.track_id = some t → t < 0 →
        check_violation s d red crossed now = .ok ((false, none), s)) := by
  refine ⟨?_, ?_, ?_, ?_, ?_, ?_⟩
  · intro s cx cy cxn cyn frame
    rfl
  · intro s z d stat thr now htid hth
    rw [check_parking_entry, if_neg (not_lt.mpr hth), htid]
  · intro s z d stat thr now htid hth
    rw [check_parking_entry, if_pos hth]
  · intro s d red crossed now htid
    rw [check_violation, htid]
  · intro s z d stat thr now t htid ht
    rw [check_parking_entry]
    by_cases hth : stat < thr
    · rw [if_pos hth]
    · rw [if_neg hth, htid]
      simp only [if_pos ht]
  · intro s d red crossed now t htid ht
    rw [check_violation, htid]
    simp only [if_pos ht]

/-- Witness for `none_track_handling` at concrete inputs. -/
theorem none_track_handling_witness :
    check_parking_entry ⟨10, 100, [], [], [], 0⟩ "z" ⟨none, 0, 0, 0, 0⟩
        (some 40) 30 0 = .error () ∧
    check_parking_entry ⟨10, 100, [], [], [], 0⟩ "z" ⟨none, 0, 0, 0, 0⟩
        (some 5) 30 0 = .ok ((false, none), ⟨10, 100, [], [], [], 0⟩) ∧
    check_violation ⟨30, [], []⟩ ⟨some (-1), 0, 0, 0, 0⟩ true true 0 =
        .ok ((false, none), ⟨30, [], []⟩) :=
  ⟨none_track_handling.2.1 ⟨10, 100, [], [], [], 0⟩ "z" ⟨none, 0, 0, 0, 0⟩
      40 30 0 rfl (by norm_num),
   none_track_handling.2.2.1 ⟨10, 100, [], [], [], 0⟩ "z" ⟨none, 0, 0, 0, 0⟩
      5 30 0 rfl (by norm_num),
   none_track_handling.2.2.2.2.2 ⟨30, [], []⟩ ⟨some (-1), 0, 0, 0, 0⟩ true true 0
      (-1) rfl (by norm_num)⟩

/-! ## C4 -/

/-- C4: while a track's displacement from its stored reference position
stays within epsilon, `update` reports it stationary with duration
`(frame - reference_frame) / fps`, leaves the whole track table (reference
position and frame included) unchanged, and the reported duration is
non-decreasing in the frame index. -/
theorem stationary_duration_spec
    (s : StatState) (d1 d2 : Detection) (tid : Int) (st : TrackState) (f1 f2 : Int)
    (hfps : 0 < s.fps) (heps : 0 ≤ s.epsilon_px)
    (h1 : d1.track_id = some tid) (h2 : d2.track_id = some tid)
    (hlk : s.track_state.lookup tid = some st)
    (hn1 : (d1.cx - st.last_x) ^ 2 + (d1.cy - st.last_y) ^ 2 ≤ s.epsilon_px ^ 2)
    (hn2 : (d2.cx - st.last_x) ^ 2 + (d2.cy - st.last_y) ^ 2 ≤ s.epsilon_px ^ 2)
    (hf : f1 ≤ f2) :
    StatState.update s d1 f1 =
      (⟨true, ((f1 - st.stationary_start_frame : Int) : ℚ) / s.fps,
        some st.stationary_start_frame⟩, s) ∧
    (StatState.update s d1 f1).1.stationary_duration_sec ≤
      (StatState.update s d2 f2).1.stationary_duration_sec := by
  have he1 : StatState.update s d1 f1 =
      (⟨true, ((f1 - st.stationary_start_frame : Int) : ℚ) / s.fps,
        some st.stationary_start_frame⟩, s) := by
    rw [StatState.update, h1]
    simp only [hlk]
    rw [if_neg (not_lt.mpr hn1)]
  have he2 : StatState.update s d2 f2 =
      (⟨true, ((f2 - st.stationary_start_frame : Int) : ℚ) / s.fps,
        some st.stationary_start_frame⟩, s) := by
    rw [StatState.update, h2]
    simp only [hlk]
    rw [if_neg (not_lt.mpr hn2)]
  refine ⟨he1, ?_⟩
  rw [he1, he2]
  have hnum : ((f1 - st.stationary_start_frame : Int) : ℚ) ≤
      ((f2 - st.stationary_start_frame : Int) : ℚ) := by
    exact_mod_cast sub_le_sub_right hf st.stationary_start_frame
  exact div_le_div_of_nonneg_right hnum hfps.le

/-- Witness for `stationary_duration_spec` at concrete inputs. -/
theorem stationary_duration_spec_witness :
    StatState.update ⟨10, 25, [(1, ⟨0, 0, 0⟩)]⟩ ⟨some 1, 3, 4, 0, 0⟩ 5 =
      (⟨true, 1 / 5, some 0⟩, ⟨10, 25, [(1, ⟨0, 0, 0⟩)]⟩) ∧
    (StatState.update ⟨10, 25, [(1, ⟨0, 0, 0⟩)]⟩ ⟨some 1, 3, 4, 0, 0⟩ 5).1.stationary_duration_sec ≤
      (StatState.update ⟨10, 25, [(1, ⟨0, 0, 0⟩)]⟩ ⟨some 1, 0, 6, 0, 0⟩ 10).1.stationary_duration_sec := by
  have h := stationary_duration_spec ⟨10, 25, [(1, ⟨0, 0, 0⟩)]⟩
    ⟨some 1, 3, 4, 0, 0⟩ ⟨some 1, 0, 6, 0, 0⟩ 1 ⟨0, 0, 0⟩ 5 10
    (by norm_num) (by norm_num) rfl rfl (by decide)
    (by norm_num) (by norm_num) (by decide)
  refine ⟨?_, h.2⟩
  rw [h.1]
  norm_num

/-! ## C6 -/

theorem tm_last_frame_eq (s : TMState) (cam : String) :
    (((if (s.last_event_frame.lookup cam).isSome then s.last_event_frame
       else s.last_event_frame ++ [(cam, 0)]).lookup cam).getD 0) = lastOf s cam := by
  by_cases h : (s.last_event_frame.lookup cam).isSome
  · rw [if_pos h]; rfl
  · have hnone : s.last_event_frame.lookup cam = none := by
      cases hm : s.last_event_frame.lookup cam with
      | none => rfl
      | some v => rw [hm] at h; simp at h
    rw [if_neg h, lookup_append, hnone]
    simp [lastOf, hnone, List.lookup_cons]

theorem should_send_spec (s : TMState) (cam : String) (f : Int) :
    ((should_send_event s cam f).1 = true ↔ s.interval_frames ≤ f - lastOf s cam) ∧
    lastOf (should_send_event s cam f).2 cam =
      (if s.interval_frames ≤ f - lastOf s cam then f else lastOf s cam) ∧
    (should_send_event s cam f).2.interval_frames = s.interval_frames := by
  simp only [should_send_event]
  rw [tm_last_frame_eq]
  by_cases hc : s.interval_frames ≤ f - lastOf s cam
  · simp only [if_pos hc]
    refine ⟨by simp [hc], ?_, trivial⟩
    simp [lastOf, lookup_dictInsert_self]
  · simp only [if_neg hc]
    refine ⟨by simp [hc], ?_, trivial⟩
    exact tm_last_frame_eq s cam

theorem tmRunP_cons (cam : String) (s : TMState) (f : Int) (fs : List Int) :
    tmRunP cam s (f :: fs) =
      ((f, (should_send_event s cam f).1) ::
        (tmRunP cam (should_send_event s cam f).2 fs).1,
       (tmRunP cam (should_send_event s cam f).2 fs).2) := rfl

theorem tm_after_true (cam : String) (I L : Int) :
    ∀ (fs : List Int) (s : TMState), s.interval_frames = I → L ≤ lastOf s cam →
      (∀ f ∈ fs, L ≤ f) → fs.Pairwise (· ≤ ·) →
      ∀ q ∈ (tmRunP cam s fs).1, q.2 = true → I ≤ q.1 - L := by
  intro fs
  induction fs with
  | nil => intro s _ _ _ _ q hq; simp [tmRunP] at hq
  | cons f fs ih =>
      intro s hI hL hall hpw q hq hqt
      have hspec := should_send_spec s cam f
      rw [tmRunP_cons] at hq
      rcases List.mem_cons.mp hq with hq1 | hq2
      · subst hq1
        have hc : s.interval_frames ≤ f - lastOf s cam := hspec.1.mp hqt
        have : L ≤ lastOf s cam := hL
        simp only [hI] at hc ⊢
        omega
      · refine ih (should_send_event s cam f).2 (by rw [hspec.2.2, hI]) ?_
          (fun g hg => hall g (List.mem_cons_of_mem f hg))
          (List.pairwise_cons.mp hpw).2 q hq2 hqt
        rw [hspec.2.1]
        by_cases hc : s.interval_frames ≤ f - lastOf s cam
        · rw [if_pos hc]; exact hall f (List.mem_cons_self f fs)
        · rw [if_neg hc]; exact hL

theorem tm_separation (cam : String) :
    ∀ (frames : List Int) (s : TMState) (pre : List (Int × Bool)) (p : Int × Bool)
      (mid : List (Int × Bool)) (q : Int × Bool) (post : List (Int × Bool)),
      frames.Pairwise (· ≤ ·) →
      (tmRunP cam s frames).1 = pre ++ p :: mid ++ q :: post →
      p.2 = true → q.2 = true →
      s.interval_frames ≤ q.1 - p.1 := by
  intro frames
  induction frames with
  | nil =>
      intro s pre p mid q post _ heq _ _
      simp [tmRunP] at heq
  | cons f fs ih =>
      intro s pre p mid q post hpw heq hp hq
      have hspec := should_send_spec s cam f
      rw [tmRunP_cons] at heq
      cases pre with
      | nil =>
          rw [List.nil_append] at heq
          have h1 : (f, (should_send_event s cam f).1) = p := (List.cons.injEq _ _ _ _ ▸ heq).1
          have h2 : (tmRunP cam (should_send_event s cam f).2 fs).1 = mid ++ q :: post :=
            (List.cons.injEq _ _ _ _ ▸ heq).2
          have hq_mem : q ∈ (tmRunP cam (should_send_event s cam f).2 fs).1 := by
            rw [h2]
            exact List.mem_append_right mid (List.mem_cons_self q post)
          have hptrue : (should_send_event s cam f).1 = true := by
            rw [← h1] at hp; exact hp
          have hlast : f ≤ lastOf (should_send_event s cam f).2 cam := by
            rw [hspec.2.1, if_pos (hspec.1.mp hptrue)]
          have hres := tm_after_true cam s.interval_frames f fs
            (should_send_event s cam f).2 hspec.2.2 hlast
            (List.pairwise_cons.mp hpw).1 (List.pairwise_cons.mp hpw).2 q hq_mem hq
          rw [← h1]
          exact hres
      | cons p0 pre' =>
          rw [List.cons_append] at heq
          have h2 : (tmRunP cam (should_send_event s cam f).2 fs).1 =
              pre' ++ p :: mid ++ q :: post := (List.cons.injEq _ _ _ _ ▸ heq).2
          have := ih (should_send_event s cam f).2 pre' p mid q post
            (List.pairwise_cons.mp hpw).2 h2 hp hq
          rwa [hspec.2.2] at this

theorem tm_first_true (cam : String) :
    ∀ (frames : List Int) (s : TMState) (pre : List (Int × Bool)) (p : Int × Bool)
      (post : List (Int × Bool)),
      (tmRunP cam s frames).1 = pre ++ p :: post →
      (∀ r ∈ pre, r.2 = false) →
      (p.2 = true ↔ s.interval_frames ≤ p.1 - lastOf s cam) := by
  intro frames
  induction frames with
  | nil =>
      intro s pre p post heq _
      simp [tmRunP] at heq
  | cons f fs ih =>
      intro s pre p post heq hfalse
      have hspec := should_send_spec s cam f
      rw [tmRunP_cons] at heq
      cases pre with
      | nil =>
          rw [List.nil_append] at heq
          have h1 : (f, (should_send_event s cam f).1) = p := (List.cons.injEq _ _ _ _ ▸ heq).1
          rw [← h1]
          exact hspec.1
      | cons r0 pre' =>
          rw [List.cons_append] at heq
          have h1 : (f, (should_send_event s cam f).1) = r0 := (List.cons.injEq _ _ _ _ ▸ heq).1
          have h2 : (tmRunP cam (should_send_event s cam f).2 fs).1 = pre' ++ p :: post :=
            (List.cons.injEq _ _ _ _ ▸ heq).2
          have hb : (should_send_event s cam f).1 = r0.2 := by rw [← h1]
          have hr0 : (should_send_event s cam f).1 = false := by
            rw [hb]; exact hfalse r0 (List.mem_cons_self r0 pre')
          have hc : ¬ s.interval_frames ≤ f - lastOf s cam := by
            intro hcc
            rw [hspec.1.mpr hcc] at hr0
            simp at hr0
          have hlast : lastOf (should_send_event s cam f).2 cam = lastOf s cam := by
            rw [hspec.2.1, if_neg hc]
          have := ih (should_send_event s cam f).2 pre' p post h2
            (fun r hr => hfalse r (List.mem_cons_of_mem r0 hr))
          rwa [hspec.2.2, hlast] at this

/-- C6: `should_send_event` returns true exactly when
`current_frame - last_emitted ≥ interval_frames` (the remembered frame,
initially 0, is updated to the current frame exactly then), and along any
monotone poll sequence two true polls are at least `interval_frames`
apart, while the first poll after a run of false polls is true exactly
when it is `interval_frames` past the remembered frame. -/
theorem traffic_monitoring_once_per_window :
    (∀ (s : TMState) (cam : String) (f : Int),
        ((should_send_event s cam f).1 = true ↔ s.interval_frames ≤ f - lastOf s cam) ∧
        lastOf (should_send_event s cam f).2 cam =
          (if s.interval_frames ≤ f - lastOf s cam then f else lastOf s cam)) ∧
    (∀ (cam : String) (frames : List Int) (s : TMState) (pre : List (Int × Bool))
        (p : Int × Bool) (mid : List (Int × Bool)) (q : Int × Bool)
        (post : List (Int × Bool)),
        frames.Pairwise (· ≤ ·) →
        (tmRunP cam s frames).1 = pre ++ p :: mid ++ q :: post →
        p.2 = true → q.2 = true →
        s.interval_frames ≤ q.1 - p.1) ∧
    (∀ (cam : String) (frames : List Int) (s : TMState) (pre : List (Int × Bool))
        (p : Int × Bool) (post : List (Int × Bool)),
        (tmRunP cam s frames).1 = pre ++ p :: post →
        (∀ r ∈ pre, r.2 = false) →
        (p.2 = true ↔ s.interval_frames ≤ p.1 - lastOf s cam)) :=
  ⟨fun s cam f => ⟨(should_send_spec s cam f).1, (should_send_spec s cam f).2.1⟩,
   fun cam frames => tm_separation cam frames,
   fun cam frames => tm_first_true cam frames⟩

/-- Witness for `traffic_monitoring_once_per_window` on a concrete run
(interval 2, polls at frames 0..4: true exactly at frames 2 and 4). -/
theorem traffic_monitoring_once_per_window_witness :
    ((should_send_event ⟨1500, []⟩ "c" 1500).1 = true ↔
        (1500 : Int) ≤ 1500 - lastOf ⟨1500, []⟩ "c") ∧
    ((2 : Int) ≤ 4 - 2) ∧
    (((2 : Int), true).2 = true ↔ (2 : Int) ≤ 2 - lastOf ⟨2, []⟩ "c") :=
  ⟨(traffic_monitoring_once_per_window.1 ⟨1500, []⟩ "c" 1500).1,
   traffic_monitoring_once_per_window.2.1 "c" [0, 1, 2, 3, 4] ⟨2, []⟩
     [(0, false), (1, false)] (2, true) [(3, false)] (4, true) []
     (by decide) (by decide) rfl rfl,
   traffic_monitoring_once_per_window.2.2 "c" [0, 1, 2, 3, 4] ⟨2, []⟩
     [(0, false), (1, false)] (2, true) [(3, false), (4, true)]
     (by decide) (by decide)⟩

/-! ## C3 -/

theorem lookup_filter_none {α β : Type} [BEq α] [LawfulBEq α]
    (l : List (α × β)) (pred : α × β → Bool) (k : α)
    (h : ∀ p ∈ l, p.1 = k → pred p = false) :
    (l.filter pred).lookup k = none := by
  induction l with
  | nil => rfl
  | cons p l ih =>
      have htail := ih (fun q hq hqk => h q (List.mem_cons_of_mem p hq) hqk)
      by_cases hp : pred p = true
      · have hk : p.1 ≠ k := fun hpk => by
          rw [h p (List.mem_cons_self p l) hpk] at hp
          simp at hp
        have hbk : (k == p.1) = false := beq_eq_false_iff_ne.mpr (Ne.symm hk)
        rw [List.filter_cons_of_pos hp]
        cases p with
        | mk a b => rw [List.lookup_cons]; simp only [hbk]; exact htail
      · rw [List.filter_cons_of_neg (by simpa using hp)]
        exact htail

theorem lookup_filter_isSome {α β : Type} [BEq α] [LawfulBEq α]
    (l : List (α × β)) (pred : α × β → Bool) (k : α)
    (hs : (l.lookup k).isSome) (h : ∀ p ∈ l, p.1 = k → pred p = true) :
    ((l.filter pred).lookup k).isSome := by
  induction l with
  | nil => simp at hs
  | cons p l ih =>
      cases p with
      | mk a b =>
          by_cases hk : (k == a) = true
          · have ha : a = k := (eq_of_beq hk).symm
            have hp : pred (a, b) = true := h (a, b) (List.mem_cons_self _ l) ha
            rw [List.filter_cons_of_pos hp, List.lookup_cons]
            simp [hk]
          · have hs' : (l.lookup k).isSome := by
              rw [List.lookup_cons] at hs
              simpa [hk] using hs
            have htail := ih hs' (fun q hq hqk => h q (List.mem_cons_of_mem _ hq) hqk)
            by_cases hp : pred (a, b) = true
            · rw [List.filter_cons_of_pos hp, List.lookup_cons]
              simpa [hk] using htail
            · rw [List.filter_cons_of_neg (by simpa using hp)]
              exact htail

theorem mem_dictInsert {α β : Type} [BEq α] [LawfulBEq α]
    (m : List (α × β)) (k : α) (v : β) (p : α × β)
    (hp : p ∈ dictInsert m k v) : p ∈ m ∨ p = (k, v) := by
  unfold dictInsert at hp
  split at hp
  case isTrue _ =>
    rcases List.mem_map.mp hp with ⟨q, hq, heq⟩
    by_cases hqk : (q.1 == k) = true
    · rw [if_pos hqk] at heq
      exact Or.inr heq.symm
    · rw [if_neg hqk] at heq
      exact Or.inl (heq ▸ hq)
  case isFalse _ =>
    rcases List.mem_append.mp hp with h | h
    · exact Or.inl h
    · exact Or.inr (List.mem_singleton.mp h)

theorem lookup_none_no_key {α β : Type} [BEq α] [LawfulBEq α]
    (l : List (α × β)) (k : α) (h : l.lookup k = none) :
    ∀ p ∈ l, p.1 ≠ k := by
  intro p hp hpk
  have : k ∈ l.map Prod.fst := List.mem_map.mpr ⟨p, hp, hpk⟩
  have := (lookup_isSome_iff l k).mpr this
  rw [h] at this
  simp at this

theorem rlvRun_cons (d : Detection) (s : RLVState) (t : ℚ) (ts : List ℚ) :
    rlvRun d s (t :: ts) =
      (violationFlag (check_violation s d true true t) ::
        (rlvRun d (violationState s (check_violation s d true true t)) ts).1,
       (rlvRun d (violationState s (check_violation s d true true t)) ts).2) := rfl

theorem rlv_fires (s : RLVState) (d : Detection) (tid : Int) (t : ℚ)
    (htid : d.track_id = some tid) (h0 : 0 ≤ tid)
    (hfresh : ∀ p ∈ s.violations, p.1 = tid → s.cooldown_sec ≤ t - p.2.violation_time) :
    violationFlag (check_violation s d true true t) = true ∧
    (violationState s (check_violation s d true true t)).cooldown_sec = s.cooldown_sec ∧
    (∀ p ∈ (violationState s (check_violation s d true true t)).violations,
        p.1 = tid → p.2.violation_time = t) ∧
    (((violationState s (check_violation s d true true t)).violations.lookup tid).isSome) := by
  have hkept : ((s.violations.filter
      (fun p => decide (t - p.2.violation_time < s.cooldown_sec))).lookup tid) = none :=
    lookup_filter_none _ _ tid
      (fun p hp hpk => decide_eq_false (not_lt.mpr (hfresh p hp hpk)))
  rw [check_violation, htid]
  simp only [if_neg (not_lt.mpr h0), eq_self_iff_true, if_true, hkept,
    Option.isSome_none, Bool.false_eq_true, if_false]
  refine ⟨rfl, rfl, ?_, ?_⟩
  · intro p hp hpk
    rcases mem_dictInsert _ _ _ p hp with hmem | heq
    · exact absurd hpk (lookup_none_no_key _ tid hkept p hmem)
    · rw [heq]
  · simp [violationState, lookup_dictInsert_self]

theorem rlv_suppressed (s : RLVState) (d : Detection) (tid : Int) (t0 t : ℚ)
    (htid : d.track_id = some tid) (h0 : 0 ≤ tid)
    (hrec : (s.violations.lookup tid).isSome)
    (htimes : ∀ p ∈ s.violations, p.1 = tid → p.2.violation_time = t0)
    (ht : t - t0 < s.cooldown_sec) :
    violationFlag (check_violation s d true true t) = false ∧
    (violationState s (check_violation s d true true t)).cooldown_sec = s.cooldown_sec ∧
    (∀ p ∈ (violationState s (check_violation s d true true t)).violations,
        p.1 = tid → p.2.violation_time = t0) ∧
    (((violationState s (check_violation s d true true t)).violations.lookup tid).isSome) := by
  have hkept : (((s.violations.filter
      (fun p => decide (t - p.2.violation_time < s.cooldown_sec)))).lookup tid).isSome :=
    lookup_filter_isSome _ _ tid hrec
      (fun p hp hpk => decide_eq_true (by rw [htimes p hp hpk]; exact ht))
  rw [check_violation, htid]
  simp only [not_lt.mpr h0, if_neg (not_lt.mpr h0), hkept, if_true]
  refine ⟨rfl, rfl, ?_, hkept⟩
  intro p hp hpk
  exact htimes p (List.mem_of_mem_filter hp) hpk

theorem rlv_run_false (d : Detection) (tid : Int) (t0 : ℚ) (C : ℚ)
    (htid : d.track_id = some tid) (h0 : 0 ≤ tid) :
    ∀ (ts : List ℚ) (s : RLVState), s.cooldown_sec = C →
      ((s.violations.lookup tid).isSome) →
      (∀ p ∈ s.violations, p.1 = tid → p.2.violation_time = t0) →
      (∀ u ∈ ts, u - t0 < C) →
      (rlvRun d s ts).1 = List.replicate ts.length false ∧
      (rlvRun d s ts).2.cooldown_sec = C ∧
      (((rlvRun d s ts).2.violations.lookup tid).isSome) ∧
      (∀ p ∈ (rlvRun d s ts).2.violations, p.1 = tid → p.2.violation_time = t0) := by
  intro ts
  induction ts with
  | nil => intro s hC hrec htimes _; exact ⟨rfl, hC, hrec, htimes⟩
  | cons t ts ih =>
      intro s hC hrec htimes hts
      have hsup := rlv_suppressed s d tid t0 t htid h0 hrec htimes
        (by rw [hC]; exact hts t (List.mem_cons_self t ts))
      have hrest := ih (violationState s (check_violation s d true true t))
        (by rw [hsup.2.1, hC]) hsup.2.2.2 hsup.2.2.1
        (fun u hu => hts u (List.mem_cons_of_mem t hu))
      rw [rlvRun_cons]
      exact ⟨by rw [List.length_cons, List.replicate_succ, hsup.1, hrest.1],
        hrest.2.1, hrest.2.2.1, hrest.2.2.2⟩

/-- C3: with a valid track id and no live dedup record, consecutive
red-light past-the-line calls at times within the cooldown window of the
first produce exactly one violation (the first call), and the next such
call at a time at least the cooldown past the first fires exactly one
more. -/
theorem red_light_once_per_cooldown
    (s : RLVState) (d : Detection) (tid : Int) (t0 : ℚ) (rest : List ℚ) (u : ℚ)
    (htid : d.track_id = some tid) (h0 : 0 ≤ tid)
    (hfresh : ∀ p ∈ s.violations, p.1 = tid → s.cooldown_sec ≤ t0 - p.2.violation_time)
    (hrest : ∀ t ∈ rest, t - t0 < s.cooldown_sec)
    (hu : s.cooldown_sec ≤ u - t0) :
    (rlvRun d s (t0 :: rest)).1 = true :: List.replicate rest.length false ∧
    violationFlag (check_violation (rlvRun d s (t0 :: rest)).2 d true true u) = true := by
  have h1 := rlv_fires s d tid t0 htid h0 hfresh
  have hrun := rlv_run_false d tid t0 s.cooldown_sec htid h0 rest
    (violationState s (check_violation s d true true t0))
    h1.2.1 h1.2.2.2 h1.2.2.1 hrest
  rw [rlvRun_cons]
  constructor
  · rw [h1.1, hrun.1]
  · refine (rlv_fires _ d tid u htid h0 ?_).1
    intro p hp hpk
    rw [hrun.2.1, hrun.2.2.2 p hp hpk]
    exact hu

/-- Witness for `red_light_once_per_cooldown`: cooldown 30 s, red-light
past-the-line calls at times 0, 1, 2 fire only at time 0; a further call
at time 30 fires again. -/
theorem red_light_once_per_cooldown_witness :
    (rlvRun ⟨some 1, 0, 0, 0, 0⟩ ⟨30, [], []⟩ [0, 1, 2]).1 = [true, false, false] ∧
    violationFlag (check_violation (rlvRun ⟨some 1, 0, 0, 0, 0⟩ ⟨30, [], []⟩ [0, 1, 2]).2
      ⟨some 1, 0, 0, 0, 0⟩ true true 30) = true := by
  have h := red_light_once_per_cooldown ⟨30, [], []⟩ ⟨some 1, 0, 0, 0, 0⟩ 1 0 [1, 2] 30
    rfl (by norm_num) (by simp) (by norm_num [List.forall_mem_cons]) (by norm_num)
  exact ⟨h.1, h.2⟩

/-! ## C8 -/

theorem mem_bucketAdd_self (m : List (String × List Detection)) (k : String) (d : Detection) :
    d ∈ ((bucketAdd m k d).lookup k).getD [] := by
  unfold bucketAdd
  cases hl : m.lookup k with
  | some l =>
      rw [lookup_dictInsert_self]
      exact List.mem_append_right l (List.mem_singleton.mpr rfl)
  | none =>
      rw [lookup_append, hl]
      simp [List.lookup_cons]

theorem mem_bucketAdd_mono (m : List (String × List Detection)) (k k' : String)
    (d x : Detection) (hx : x ∈ (m.lookup k).getD []) :
    x ∈ ((bucketAdd m k' d).lookup k).getD [] := by
  unfold bucketAdd
  cases hl : m.lookup k' with
  | some l =>
      by_cases hkk : k = k'
      · subst hkk
        rw [lookup_dictInsert_self]
        rw [hl] at hx
        exact List.mem_append_left [d] hx
      · rw [lookup_dictInsert_ne _ _ _ _ hkk]
        exact hx
  | none =>
      rw [lookup_append]
      cases hmk : m.lookup k with
      | some l => rw [hmk] at hx; simp [hmk]; exact hx
      | none => rw [hmk] at hx; simp at hx

theorem mem_zone_fold_mono (det x : Detection) (k : String) (ztype : String) :
    ∀ (zs : List Zone) (acc : List (String × List Detection)),
      x ∈ (acc.lookup k).getD [] →
      x ∈ ((zs.foldl
        (fun acc2 z => if z.ztype = ztype then bucketAdd acc2 z.name det else acc2)
        acc).lookup k).getD [] := by
  intro zs
  induction zs with
  | nil => intro acc hx; exact hx
  | cons z zs ih =>
      intro acc hx
      rw [List.foldl_cons]
      refine ih _ ?_
      by_cases hzt : z.ztype = ztype
      · rw [if_pos hzt]
        exact mem_bucketAdd_mono acc k z.name det x hx
      · rw [if_neg hzt]
        exact hx

theorem mem_zone_fold_add (det : Detection) (ztype : String) :
    ∀ (zs : List Zone) (acc : List (String × List Detection)) (z : Zone),
      z ∈ zs → z.ztype = ztype →
      det ∈ ((zs.foldl
        (fun acc2 z => if z.ztype = ztype then bucketAdd acc2 z.name det else acc2)
        acc).lookup z.name).getD [] := by
  intro zs
  induction zs with
  | nil => intro acc z hz _; simp at hz
  | cons z0 zs ih =>
      intro acc z hz hzt
      rw [List.foldl_cons]
      rcases List.mem_cons.mp hz with rfl | hz'
      · rw [if_pos hzt]
        exact mem_zone_fold_mono det det z.name ztype zs _
          (mem_bucketAdd_self acc z.name det)
      · exact ih _ z hz' hzt

theorem mem_det_fold_mono (zones : List Zone) (ztype : String) (x : Detection) (k : String) :
    ∀ (ds : List Detection) (acc : List (String × List Detection)),
      x ∈ (acc.lookup k).getD [] →
      x ∈ ((ds.foldl
        (fun acc det => (get_vehicle_zones zones det).foldl
          (fun acc2 z => if z.ztype = ztype then bucketAdd acc2 z.name det else acc2) acc)
        acc).lookup k).getD [] := by
  intro ds
  induction ds with
  | nil => intro acc hx; exact hx
  | cons d ds ih =>
      intro acc hx
      rw [List.foldl_cons]
      exact ih _ (mem_zone_fold_mono d x k ztype _ acc hx)

theorem mem_det_fold_add (zones : List Zone) (ztype : String) (det : Detection)
    (z : Zone) (ht : z.ztype = ztype) (hzf : z ∈ get_vehicle_zones zones det) :
    ∀ (ds : List Detection) (acc : List (String × List Detection)),
      det ∈ ds →
      det ∈ ((ds.foldl
        (fun acc det => (get_vehicle_zones zones det).foldl
          (fun acc2 z => if z.ztype = ztype then bucketAdd acc2 z.name det else acc2) acc)
        acc).lookup z.name).getD [] := by
  intro ds
  induction ds with
  | nil => intro acc hd; simp at hd
  | cons d ds ih =>
      intro acc hd
      rw [List.foldl_cons]
      rcases List.mem_cons.mp hd with rfl | hd'
      · exact mem_det_fold_mono zones ztype det z.name ds _
          (mem_zone_fold_add det ztype _ acc z hzf ht)
      · exact ih _ hd'

/-- C8 counterexample: `get_detections_in_any_zone_of_type` does NOT filter
by track id: a detection with track id `None` whose center lies in a zone
of the requested type IS placed in that zone's bucket, contradicting
"detections without a valid track id appear in no bucket". -/
theorem group_by_zone_none_tid_cex :
    (⟨none, 5, 5, 1 / 2, 1 / 2⟩ : Detection) ∈
      ((get_detections_in_any_zone_of_type
          [⟨"z", "parking", [(0, 0), (1, 0), (1, 1), (0, 1)]⟩]
          [⟨none, 5, 5, 1 / 2, 1 / 2⟩] "parking").lookup "z").getD [] := by
  have hzf : (⟨"z", "parking", [(0, 0), (1, 0), (1, 1), (0, 1)]⟩ : Zone) ∈
      get_vehicle_zones [⟨"z", "parking", [(0, 0), (1, 0), (1, 1), (0, 1)]⟩]
        ⟨none, 5, 5, 1 / 2, 1 / 2⟩ := by
    unfold get_vehicle_zones
    refine List.mem_filter.mpr ⟨List.mem_singleton.mpr rfl, ?_⟩
    show point_in_polygon ((1 : ℚ) / 2, 1 / 2) [(0, 0), (1, 0), (1, 1), (0, 1)] = true
    simp [point_in_polygon, List.range_succ]
    norm_num
  exact mem_det_fold_add _ "parking" _ _ rfl hzf _ [] (List.mem_singleton.mpr rfl)

/-- C8 (amended): every detection — regardless of its track id — is placed
in the bucket of every zone of the requested type whose polygon contains
its normalized center.  (The claim's exclusion of detections without a
valid track id fails: see `group_by_zone_none_tid_cex`.) -/
theorem group_by_zone_membership
    (zones : List Zone) (dets : List Detection) (ztype : String)
    (det : Detection) (z : Zone)
    (hd : det ∈ dets) (hz : z ∈ zones) (ht : z.ztype = ztype)
    (hin : point_in_polygon (det.cx_norm, det.cy_norm) z.polygon = true) :
    det ∈ ((get_detections_in_any_zone_of_type zones dets ztype).lookup z.name).getD [] := by
  have hzf : z ∈ get_vehicle_zones zones det := by
    unfold get_vehicle_zones
    exact List.mem_filter.mpr ⟨hz, hin⟩
  exact mem_det_fold_add zones ztype det z ht hzf dets [] hd

/-- Witness for `group_by_zone_membership` at a concrete zone table. -/
theorem group_by_zone_membership_witness :
    (⟨some 7, 5, 5, 1 / 2, 1 / 2⟩ : Detection) ∈
      ((get_detections_in_any_zone_of_type
          [⟨"z", "parking", [(0, 0), (1, 0), (1, 1), (0, 1)]⟩]
          [⟨some 7, 5, 5, 1 / 2, 1 / 2⟩] "parking").lookup "z").getD [] :=
  group_by_zone_membership [⟨"z", "parking", [(0, 0), (1, 0), (1, 1), (0, 1)]⟩]
    [⟨some 7, 5, 5, 1 / 2, 1 / 2⟩] "parking" ⟨some 7, 5, 5, 1 / 2, 1 / 2⟩
    ⟨"z", "parking", [(0, 0), (1, 0), (1, 1), (0, 1)]⟩
    (List.mem_singleton.mpr rfl) (List.mem_singleton.mpr rfl) rfl
    (by simp [point_in_polygon, List.range_succ]; norm_num)

/-! ## C1 -/

theorem processExit_absent (c : List Int) (dbn : ℕ) (now : ℚ) (tid : Int) :
    ∀ l : List (Int × PSession), tid ∉ l.map Prod.fst →
      (processExit c dbn now l).2.1.lookup tid = none ∧
      tid ∉ (processExit c dbn now l).2.2.2 ∧
      ∀ e ∈ (processExit c dbn now l).1, e.2.2 ≠ tid := by
  intro l
  induction l with
  | nil =>
      intro _
      refine ⟨rfl, by simp [processExit], ?_⟩
      intro e he
      simp [processExit] at he
  | cons p l ih =>
      intro hout
      obtain ⟨t0, v0⟩ := p
      have h1 : tid ≠ t0 ∧ tid ∉ l.map Prod.fst := by simpa using hout
      obtain ⟨ht0, hl⟩ := h1
      have iht := ih hl
      simp only [processExit]
      by_cases hdm : dbn ≤ (if c.contains t0 then 0 else v0.missing_frames + 1)
      · rw [if_pos hdm]
        refine ⟨iht.1, ?_, ?_⟩
        · intro hmem
          rcases List.mem_cons.mp hmem with h | h
          · exact ht0 h
          · exact iht.2.1 h
        · intro e he
          rcases List.mem_append.mp he with h | h
          · by_cases h30 : (30 : ℚ) ≤ now - v0.entry_time
            · rw [if_pos h30] at h
              rw [List.mem_singleton.mp h]
              exact Ne.symm ht0
            · rw [if_neg h30] at h
              simp at h
          · exact iht.2.2 e h
      · rw [if_neg hdm]
        refine ⟨?_, iht.2.1, iht.2.2⟩
        rw [List.lookup_cons]
        have hbeq : (tid == t0) = false := beq_eq_false_iff_ne.mpr ht0
        simp only [hbeq]
        exact iht.1

theorem processExit_spec (c : List Int) (dbn : ℕ) (now : ℚ) (tid : Int) (v : PSession) :
    ∀ l : List (Int × PSession), (tid, v) ∈ l → (l.map Prod.fst).Nodup →
      (dbn ≤ (if c.contains tid then 0 else v.missing_frames + 1) →
        (processExit c dbn now l).2.1.lookup tid = none ∧
        tid ∈ (processExit c dbn now l).2.2.2 ∧
        (⟨now, v.event_id, tid⟩ : ExitRec) ∈ (processExit c dbn now l).2.2.1 ∧
        ((v.event_id, now - v.entry_time, tid) ∈ (processExit c dbn now l).1 ↔
          (30 : ℚ) ≤ now - v.entry_time)) ∧
      ((if c.contains tid then 0 else v.missing_frames + 1) < dbn →
        (processExit c dbn now l).2.1.lookup tid =
          some { v with missing_frames :=
            if c.contains tid then 0 else v.missing_frames + 1 } ∧
        (v.event_id, now - v.entry_time, tid) ∉ (processExit c dbn now l).1) := by
  intro l
  induction l with
  | nil => intro hmem _; simp at hmem
  | cons p l ih =>
      intro hmem hnodup
      obtain ⟨t0, v0⟩ := p
      rcases List.mem_cons.mp hmem with heq | hmem'
      · injection heq with he1 he2
        subst he1
        subst he2
        have htid_not : tid ∉ l.map Prod.fst :=
          (List.nodup_cons.mp (by simpa using hnodup)).1
        have habs := processExit_absent c dbn now tid l htid_not
        simp only [processExit]
        by_cases hdm : dbn ≤ (if c.contains tid then 0 else v.missing_frames + 1)
        · rw [if_pos hdm]
          refine ⟨fun _ => ⟨habs.1, List.mem_cons_self _ _, List.mem_cons_self _ _, ?_⟩,
            fun h => absurd hdm (by omega)⟩
          constructor
          · intro hmem2
            rcases List.mem_append.mp hmem2 with h | h
            · by_cases h30 : (30 : ℚ) ≤ now - v.entry_time
              · exact h30
              · rw [if_neg h30] at h
                simp at h
            · exact absurd rfl (habs.2.2 _ h)
          · intro h30
            refine List.mem_append_left _ ?_
            rw [if_pos h30]
            exact List.mem_singleton.mpr rfl
        · rw [if_neg hdm]
          refine ⟨fun h => absurd h hdm, fun _ => ⟨?_, ?_⟩⟩
          · rw [List.lookup_cons]
            simp
          · intro hmem2
            exact absurd rfl (habs.2.2 _ hmem2)
      · have hnodup' : (l.map Prod.fst).Nodup :=
          (List.nodup_cons.mp (by simpa using hnodup)).2
        have ht0tid : t0 ≠ tid := by
          have h1 : t0 ∉ l.map Prod.fst :=
            (List.nodup_cons.mp (by simpa using hnodup)).1
          have h2 : tid ∈ l.map Prod.fst := List.mem_map.mpr ⟨(tid, v), hmem', rfl⟩
          exact fun he => h1 (he ▸ h2)
        have iht := ih hmem' hnodup'
        have hbeq : (tid == t0) = false := beq_eq_false_iff_ne.mpr (Ne.symm ht0tid)
        have hnothere : (v.event_id, now - v.entry_time, tid) ∉
            (if (30 : ℚ) ≤ now - v0.entry_time
             then [(v0.event_id, now - v0.entry_time, t0)] else []) := by
          by_cases h30 : (30 : ℚ) ≤ now - v0.entry_time
          · rw [if_pos h30]
            intro h
            have h22 := congrArg (fun q : ℕ × ℚ × Int => q.2.2) (List.mem_singleton.mp h)
            exact (Ne.symm ht0tid) h22
          · rw [if_neg h30]
            simp
        simp only [processExit]
        by_cases hdm0 : dbn ≤ (if c.contains t0 then 0 else v0.missing_frames + 1)
        · rw [if_pos hdm0]
          constructor
          · intro hdm
            obtain ⟨ha, hb, hc, hd⟩ := iht.1 hdm
            refine ⟨ha, List.mem_cons_of_mem _ hb, List.mem_cons_of_mem _ hc, ?_⟩
            constructor
            · intro hmem2
              rcases List.mem_append.mp hmem2 with h | h
              · exact absurd h hnothere
              · exact hd.mp h
            · intro h30
              exact List.mem_append_right _ (hd.mpr h30)
          · intro hdm
            obtain ⟨ha, hb⟩ := iht.2 hdm
            refine ⟨ha, ?_⟩
            intro hmem2
            rcases List.mem_append.mp hmem2 with h | h
            · exact absurd h hnothere
            · exact hb h
        · rw [if_neg hdm0]
          constructor
          · intro hdm
            obtain ⟨ha, hb, hc, hd⟩ := iht.1 hdm
            refine ⟨?_, hb, hc, hd⟩
            rw [List.lookup_cons]
            simp only [hbeq]
            exact ha
          · intro hdm
            obtain ⟨ha, hb⟩ := iht.2 hdm
            refine ⟨?_, hb⟩
            rw [List.lookup_cons]
            simp only [hbeq]
            exact ha

theorem check_parking_exit_eq (s : ParkState) (z : String)
    (vehicles : List (Option Int)) (cf : Int) (now : ℚ)
    (sessions : List (Int × PSession))
    (hz : s.zone_tracked_ids.lookup z = some sessions)
    (hv : vehicles.contains none = false) :
    check_parking_exit s z vehicles cf now =
      .ok ((processExit ((vehicles.filterMap id).filter (fun t => 0 ≤ t))
              s.exit_debounce_frames now sessions).1,
        { s with
          zone_tracked_ids := dictInsert s.zone_tracked_ids z
            (processExit ((vehicles.filterMap id).filter (fun t => 0 ≤ t))
              s.exit_debounce_frames now sessions).2.1,
          recent_exits := dictInsert s.recent_exits z
            (((s.recent_exits.lookup z).getD []) ++
              (processExit ((vehicles.filterMap id).filter (fun t => 0 ≤ t))
                s.exit_debounce_frames now sessions).2.2.1),
          seen_track_ids := dictInsert s.seen_track_ids z
            (((s.seen_track_ids.lookup z).getD []).filter
              (fun t => ¬ (processExit ((vehicles.filterMap id).filter (fun t => 0 ≤ t))
                s.exit_debounce_frames now sessions).2.2.2.contains t)) }) := by
  simp only [check_parking_exit, hz, Option.isSome_some, if_true, hv,
    Bool.false_eq_true, if_false, Option.getD_some]

/-- C1 counterexample: after `check_parking_entry` returns true with entry
threshold 5 s at time 0, a `check_parking_exit` call at time 10 — at which
the session's missing-frame counter reaches the debounce and the duration
10 s is at least the entry threshold 5 s — emits NO exit record (the gate
is a hard-coded 30 s, not the entry threshold), yet it still deletes the
session.  This contradicts the claim on both counts. -/
theorem parking_exit_premature_delete_cex :
    pentryFlag (check_parking_entry pcex0 "z" pcexDet (some 6) 5 0) = true ∧
    (5 : ℚ) ≤ 10 - 0 ∧
    pexitList (check_parking_exit pcexS1 "z" [] 0 10) = [] ∧
    (((pexitState pcex0 (check_parking_exit pcexS1 "z" [] 0 10)).zone_tracked_ids.lookup
        "z").getD []).lookup 5 = none := by
  have hS1 : pcexS1 = pw0 := by
    norm_num [pcexS1, pentryState, check_parking_entry, initZone, recordEntry, pcex0,
      pcexDet, pw0, dictInsert, setAdd]
  refine ⟨?_, by norm_num, ?_, ?_⟩
  · norm_num [pentryFlag, check_parking_entry, initZone, recordEntry, pcex0, pcexDet,
      dictInsert, setAdd]
  · rw [hS1]
    norm_num [pexitList, check_parking_exit, pw0, processExit, dictInsert]
  · rw [hS1]
    norm_num [pexitState, check_parking_exit, pw0, pcex0, processExit, dictInsert]

/-- C1 (amended): once a session's consecutive-missing counter reaches the
exit-debounce threshold, `check_parking_exit` ALWAYS deletes the session,
removes the track from the zone's seen set and appends an exit-cooldown
record; the exit event itself is emitted iff the duration
`now - entry_time` is at least the hard-coded 30 s (independent of the
entry threshold passed to `check_parking_entry`).  A session whose updated
counter is below the debounce stays open with the updated counter and
emits nothing. -/
theorem parking_exit_behavior
    (s : ParkState) (z : String) (vehicles : List (Option Int)) (cf : Int) (now : ℚ)
    (tid : Int) (v : PSession) (sessions : List (Int × PSession))
    (hz : s.zone_tracked_ids.lookup z = some sessions)
    (hv : vehicles.contains none = false)
    (hmem : (tid, v) ∈ sessions)
    (hnodup : (sessions.map Prod.fst).Nodup) :
    (s.exit_debounce_frames ≤
        (if ((vehicles.filterMap id).filter (fun t => 0 ≤ t)).contains tid then 0
         else v.missing_frames + 1) →
      (((pexitState s (check_parking_exit s z vehicles cf now)).zone_tracked_ids.lookup
          z).getD []).lookup tid = none ∧
      tid ∉ ((pexitState s (check_parking_exit s z vehicles cf now)).seen_track_ids.lookup
          z).getD [] ∧
      (⟨now, v.event_id, tid⟩ : ExitRec) ∈
        ((pexitState s (check_parking_exit s z vehicles cf now)).recent_exits.lookup
          z).getD [] ∧
      ((v.event_id, now - v.entry_time, tid) ∈
          pexitList (check_parking_exit s z vehicles cf now) ↔
        (30 : ℚ) ≤ now - v.entry_time)) ∧
    ((if ((vehicles.filterMap id).filter (fun t => 0 ≤ t)).contains tid then 0
      else v.missing_frames + 1) < s.exit_debounce_frames →
      (((pexitState s (check_parking_exit s z vehicles cf now)).zone_tracked_ids.lookup
          z).getD []).lookup tid =
        some { v with missing_frames :=
          if ((vehicles.filterMap id).filter (fun t => 0 ≤ t)).contains tid then 0
          else v.missing_frames + 1 } ∧
      (v.event_id, now - v.entry_time, tid) ∉
        pexitList (check_parking_exit s z vehicles cf now)) := by
  have heq := check_parking_exit_eq s z vehicles cf now sessions hz hv
  have hspec := processExit_spec ((vehicles.filterMap id).filter (fun t => 0 ≤ t))
    s.exit_debounce_frames now tid v sessions hmem hnodup
  rw [heq]
  simp only [pexitState, pexitList, lookup_dictInsert_self, Option.getD_some]
  constructor
  · intro hdm
    obtain ⟨ha, hb, hc, hd⟩ := hspec.1 hdm
    refine ⟨ha, ?_, List.mem_append_right _ hc, hd⟩
    intro hmem2
    have hflt := List.mem_filter.mp hmem2
    simp at hflt
    exact hflt.2 hb
  · intro hdm
    exact hspec.2 hdm

/-- Witness for `parking_exit_behavior`: the open session of `pw0` (track
5, entry time 0) is absent at time 40; its counter reaches the debounce 1,
the session is deleted, and since 40 s ≥ 30 s the exit event is emitted. -/
theorem parking_exit_behavior_witness :
    (((pexitState pw0 (check_parking_exit pw0 "z" [] 0 40)).zone_tracked_ids.lookup
        "z").getD []).lookup 5 = none ∧
    ((0, (40 : ℚ) - 0, 5) ∈ pexitList (check_parking_exit pw0 "z" [] 0 40) ↔
      (30 : ℚ) ≤ 40 - 0) := by
  have h := (parking_exit_behavior pw0 "z" [] 0 40 5 ⟨0, 0, 0⟩ [(5, ⟨0, 0, 0⟩)] rfl rfl
    (List.mem_singleton.mpr rfl) (by simp)).1 (by norm_num [pw0])
  exact ⟨h.1, h.2.2.2⟩

/-! ## C2 -/

theorem lookup_append_single_ne {α β : Type} [BEq α] [LawfulBEq α]
    (m : List (α × β)) (w z : α) (v : β) (h : z ≠ w) :
    (m ++ [(w, v)]).lookup z = m.lookup z := by
  rw [lookup_append]
  cases hm : m.lookup z <;>
    simp [hm, List.lookup_cons, beq_eq_false_iff_ne.mpr h]

theorem lookup_append_single_self {α β : Type} [BEq α] [LawfulBEq α]
    (m : List (α × β)) (w : α) (v : β) (h : m.lookup w = none) :
    (m ++ [(w, v)]).lookup w = some v := by
  rw [lookup_append, h]
  simp [List.lookup_cons]

theorem isSome_of_mem_getD {α : Type} (o : Option (List α)) (x : α)
    (h : x ∈ o.getD []) : o.isSome := by
  cases o with
  | none => simp at h
  | some l => rfl

theorem pentry_cases (s : ParkState) (w : String) (d : Detection) (stat : Option ℚ)
    (thr now : ℚ) :
    (pentryFlag (check_parking_entry s w d stat thr now) = false ∧
      (pentryState s (check_parking_entry s w d stat thr now) = s ∨
        (pentryState s (check_parking_entry s w d stat thr now) = initZone s w ∧
          ¬ (s.zone_tracked_ids.lookup w).isSome))) ∨
    (∃ tid s1, d.track_id = some tid ∧ ¬ tid < 0 ∧
      (s1 = s ∨ (s1 = initZone s w ∧ ¬ (s.zone_tracked_ids.lookup w).isSome)) ∧
      tid ∉ (s1.seen_track_ids.lookup w).getD [] ∧
      pentryFlag (check_parking_entry s w d stat thr now) = true ∧
      pentryState s (check_parking_entry s w d stat thr now) = recordEntry s1 w tid now) := by
  cases stat with
  | none => exact Or.inl ⟨rfl, Or.inl rfl⟩
  | some q =>
      by_cases hq : q < thr
      · exact Or.inl ⟨by simp [pentryFlag, check_parking_entry, hq],
          Or.inl (by simp [pentryState, check_parking_entry, hq])⟩
      · cases htid : d.track_id with
        | none =>
            exact Or.inl ⟨by simp [pentryFlag, check_parking_entry, hq, htid],
              Or.inl (by simp [pentryState, check_parking_entry, hq, htid])⟩
        | some tid =>
            by_cases hneg : tid < 0
            · exact Or.inl ⟨by simp [pentryFlag, check_parking_entry, hq, htid, hneg],
                Or.inl (by simp [pentryState, check_parking_entry, hq, htid, hneg])⟩
            · by_cases hzs : (s.zone_tracked_ids.lookup w).isSome
              · by_cases hcont : tid ∈ (s.seen_track_ids.lookup w).getD []
                · refine Or.inl ⟨?_, Or.inl ?_⟩ <;>
                    simp [pentryFlag, pentryState, check_parking_entry, hq, htid, hneg,
                      hzs, hcont]
                · refine Or.inr ⟨tid, s, rfl, hneg, Or.inl rfl, hcont, ?_, ?_⟩ <;>
                    simp [pentryFlag, pentryState, check_parking_entry, hq, htid, hneg,
                      hzs, hcont]
              · by_cases hcont : tid ∈ ((initZone s w).seen_track_ids.lookup w).getD []
                · refine Or.inl ⟨?_, Or.inr ⟨?_, hzs⟩⟩ <;>
                    simp [pentryFlag, pentryState, check_parking_entry, hq, htid, hneg,
                      hzs, hcont]
                · refine Or.inr ⟨tid, initZone s w, rfl, hneg, Or.inr ⟨rfl, hzs⟩,
                    hcont, ?_, ?_⟩ <;>
                    simp [pentryFlag, pentryState, check_parking_entry, hq, htid, hneg,
                      hzs, hcont]

theorem initZone_props (s : ParkState) (w : String)
    (hzs : ¬ (s.zone_tracked_ids.lookup w).isSome) :
    (PWF s → PWF (initZone s w)) ∧
    (PWF s → ∀ (z : String) (t : Int), t ∈ seenOf s z → t ∈ seenOf (initZone s w) z) ∧
    (SessionsNodup s → SessionsNodup (initZone s w)) := by
  have hzn : s.zone_tracked_ids.lookup w = none := by
    cases h : s.zone_tracked_ids.lookup w with
    | none => rfl
    | some l => exact absurd (by rw [h]; rfl) hzs
  refine ⟨?_, ?_, ?_⟩
  · intro hwf z
    have hsn : s.seen_track_ids.lookup w = none := by
      cases h : s.seen_track_ids.lookup w with
      | none => rfl
      | some l => exact absurd ((hwf w).mpr (by rw [h]; rfl)) hzs
    by_cases hzw : z = w
    · subst hzw
      show ((s.zone_tracked_ids ++ [(z, [])]).lookup z).isSome ↔
        ((s.seen_track_ids ++ [(z, [])]).lookup z).isSome
      rw [lookup_append_single_self _ _ _ hzn, lookup_append_single_self _ _ _ hsn]
      exact Iff.rfl
    · show ((s.zone_tracked_ids ++ [(w, [])]).lookup z).isSome ↔
        ((s.seen_track_ids ++ [(w, [])]).lookup z).isSome
      rw [lookup_append_single_ne _ _ _ _ hzw, lookup_append_single_ne _ _ _ _ hzw]
      exact hwf z
  · intro hwf z t ht
    have hsn : s.seen_track_ids.lookup w = none := by
      cases h : s.seen_track_ids.lookup w with
      | none => rfl
      | some l => exact absurd ((hwf w).mpr (by rw [h]; rfl)) hzs
    by_cases hzw : z = w
    · subst hzw
      rw [seenOf, hsn] at ht
      simp at ht
    · show t ∈ ((s.seen_track_ids ++ [(w, [])]).lookup z).getD []
      rw [lookup_append_single_ne _ _ _ _ hzw]
      exact ht
  · intro h z l hl
    by_cases hzw : z = w
    · subst hzw
      rw [show (initZone s z).zone_tracked_ids = s.zone_tracked_ids ++ [(z, [])] from rfl,
        lookup_append_single_self _ _ _ hzn] at hl
      cases hl
      simp
    · rw [show (initZone s w).zone_tracked_ids = s.zone_tracked_ids ++ [(w, [])] from rfl,
        lookup_append_single_ne _ _ _ _ hzw] at hl
      exact h z l hl

theorem recordEntry_props (s1 : ParkState) (w : String) (tid : Int) (now : ℚ) :
    (PWF s1 → PWF (recordEntry s1 w tid now)) ∧
    (∀ (z : String) (t : Int), t ∈ seenOf s1 z → t ∈ seenOf (recordEntry s1 w tid now) z) ∧
    (SessionsNodup s1 → SessionsNodup (recordEntry s1 w tid now)) ∧
    tid ∈ seenOf (recordEntry s1 w tid now) w := by
  refine ⟨?_, ?_, ?_, ?_⟩
  · intro hwf z
    by_cases hzw : z = w
    · subst hzw
      show ((dictInsert s1.zone_tracked_ids z _).lookup z).isSome ↔
        ((dictInsert s1.seen_track_ids z _).lookup z).isSome
      rw [lookup_dictInsert_self, lookup_dictInsert_self]
      exact Iff.rfl
    · show ((dictInsert s1.zone_tracked_ids w _).lookup z).isSome ↔
        ((dictInsert s1.seen_track_ids w _).lookup z).isSome
      rw [lookup_dictInsert_ne _ _ _ _ hzw, lookup_dictInsert_ne _ _ _ _ hzw]
      exact hwf z
  · intro z t ht
    by_cases hzw : z = w
    · subst hzw
      show t ∈ ((dictInsert s1.seen_track_ids z
        (setAdd ((s1.seen_track_ids.lookup z).getD []) tid)).lookup z).getD []
      rw [lookup_dictInsert_self]
      exact (mem_setAdd _ _ _).mpr (Or.inl ht)
    · show t ∈ ((dictInsert s1.seen_track_ids w _).lookup z).getD []
      rw [lookup_dictInsert_ne _ _ _ _ hzw]
      exact ht
  · intro h z l hl
    by_cases hzw : z = w
    · subst hzw
      rw [show (recordEntry s1 z tid now).zone_tracked_ids = dictInsert s1.zone_tracked_ids
          z (dictInsert ((s1.zone_tracked_ids.lookup z).getD []) tid ⟨now, s1.next_id, 0⟩)
          from rfl, lookup_dictInsert_self] at hl
      cases hl
      refine nodup_keys_dictInsert _ _ _ ?_
      cases hz1 : s1.zone_tracked_ids.lookup z with
      | none => simp
      | some l0 => simpa using h z l0 hz1
    · rw [show (recordEntry s1 w tid now).zone_tracked_ids = dictInsert s1.zone_tracked_ids
          w (dictInsert ((s1.zone_tracked_ids.lookup w).getD []) tid ⟨now, s1.next_id, 0⟩)
          from rfl, lookup_dictInsert_ne _ _ _ _ hzw] at hl
      exact h z l hl
  · show tid ∈ ((dictInsert s1.seen_track_ids w
      (setAdd ((s1.seen_track_ids.lookup w).getD []) tid)).lookup w).getD []
    rw [lookup_dictInsert_self]
    exact (mem_setAdd _ _ _).mpr (Or.inr rfl)

theorem pentry_props (s : ParkState) (w : String) (d : Detection) (stat : Option ℚ)
    (thr now : ℚ) :
    (PWF s → PWF (pentryState s (check_parking_entry s w d stat thr now))) ∧
    (PWF s → ∀ (z : String) (t : Int), t ∈ seenOf s z →
        t ∈ seenOf (pentryState s (check_parking_entry s w d stat thr now)) z) ∧
    (SessionsNodup s →
        SessionsNodup (pentryState s (check_parking_entry s w d stat thr now))) ∧
    (∀ tid, d.track_id = some tid →
      pentryFlag (check_parking_entry s w d stat thr now) = true →
      tid ∈ seenOf (pentryState s (check_parking_entry s w d stat thr now)) w) := by
  rcases pentry_cases s w d stat thr now with
    ⟨hf, hs | ⟨hs, hzs⟩⟩ | ⟨tid, s1, htid, _, hs1, _, hf, hs⟩
  · rw [hs]
    exact ⟨id, fun _ _ _ h => h, id,
      fun tid _ hflag => by rw [hf] at hflag; simp at hflag⟩
  · rw [hs]
    obtain ⟨a, b, c⟩ := initZone_props s w hzs
    exact ⟨a, b, c, fun tid _ hflag => by rw [hf] at hflag; simp at hflag⟩
  · rw [hs]
    obtain ⟨ra, rb, rc, rd⟩ := recordEntry_props s1 w tid now
    rcases hs1 with rfl | ⟨rfl, hzs⟩
    · refine ⟨ra, fun _ z t ht => rb z t ht, rc, ?_⟩
      intro tid' htid' _
      have he : tid = tid' := Option.some.inj (htid.symm.trans htid')
      exact he ▸ rd
    · obtain ⟨ia, ib, ic⟩ := initZone_props s w hzs
      refine ⟨fun hwf => ra (ia hwf), fun hwf z t ht => rb z t (ib hwf z t ht),
        fun h => rc (ic h), ?_⟩
      intro tid' htid' _
      have he : tid = tid' := Option.some.inj (htid.symm.trans htid')
      exact he ▸ rd

theorem pentry_false_of_seen (s : ParkState) (z : String) (d : Detection) (tid : Int)
    (stat : Option ℚ) (thr now : ℚ)
    (hwf : PWF s) (hseen : tid ∈ seenOf s z) (htid : d.track_id = some tid) :
    pentryFlag (check_parking_entry s z d stat thr now) = false := by
  rcases pentry_cases s z d stat thr now with
    ⟨hf, _⟩ | ⟨tid', s1, htid', _, hs1, hcont, _, _⟩
  · exact hf
  · exfalso
    have he : tid' = tid := Option.some.inj (htid'.symm.trans htid)
    subst he
    rcases hs1 with rfl | ⟨rfl, hzs⟩
    · exact hcont hseen
    · have hsn : s.seen_track_ids.lookup z = none := by
        cases h : s.seen_track_ids.lookup z with
        | none => rfl
        | some l => exact absurd ((hwf z).mpr (by rw [h]; rfl)) hzs
      rw [seenOf, hsn] at hseen
      simp at hseen

theorem processExit_keys_sublist (c : List Int) (dbn : ℕ) (now : ℚ) :
    ∀ l : List (Int × PSession),
      ((processExit c dbn now l).2.1.map Prod.fst).Sublist (l.map Prod.fst) := by
  intro l
  induction l with
  | nil => simp [processExit]
  | cons p l ih =>
      obtain ⟨t0, v0⟩ := p
      simp only [processExit, List.map_cons]
      by_cases hdm : dbn ≤ (if c.contains t0 then 0 else v0.missing_frames + 1)
      · rw [if_pos hdm]
        exact List.Sublist.cons t0 ih
      · rw [if_neg hdm]
        exact List.Sublist.cons₂ t0 ih

theorem pexit_cases (s : ParkState) (w : String) (vs : List (Option Int)) (cf : Int)
    (now : ℚ) :
    pexitState s (check_parking_exit s w vs cf now) = s ∨
    ∃ sessions, s.zone_tracked_ids.lookup w = some sessions ∧
      pexitState s (check_parking_exit s w vs cf now) =
        { s with
          zone_tracked_ids := dictInsert s.zone_tracked_ids w
            (processExit ((vs.filterMap id).filter (fun t => 0 ≤ t))
              s.exit_debounce_frames now sessions).2.1,
          recent_exits := dictInsert s.recent_exits w
            (((s.recent_exits.lookup w).getD []) ++
              (processExit ((vs.filterMap id).filter (fun t => 0 ≤ t))
                s.exit_debounce_frames now sessions).2.2.1),
          seen_track_ids := dictInsert s.seen_track_ids w
            (((s.seen_track_ids.lookup w).getD []).filter
              (fun t => ¬ (processExit ((vs.filterMap id).filter (fun t => 0 ≤ t))
                s.exit_debounce_frames now sessions).2.2.2.contains t)) } := by
  by_cases hzs : (s.zone_tracked_ids.lookup w).isSome
  · by_cases hvn : none ∈ vs
    · left
      simp [pexitState, check_parking_exit, hzs, hvn]
    · right
      obtain ⟨sessions, hsess⟩ := Option.isSome_iff_exists.mp hzs
      have hvn' : vs.contains none = false := by
        cases h : vs.contains none
        · rfl
        · exact absurd (List.elem_iff.mp h) hvn
      refine ⟨sessions, hsess, ?_⟩
      rw [check_parking_exit_eq s w vs cf now sessions hsess hvn']
      rfl
  · left
    simp [pexitState, check_parking_exit, hzs]

theorem pexit_props (s : ParkState) (w : String) (vs : List (Option Int)) (cf : Int)
    (now : ℚ) :
    (PWF s → PWF (pexitState s (check_parking_exit s w vs cf now))) ∧
    (∀ z, z ≠ w → seenOf (pexitState s (check_parking_exit s w vs cf now)) z =
        seenOf s z) ∧
    (SessionsNodup s → SessionsNodup (pexitState s (check_parking_exit s w vs cf now))) := by
  rcases pexit_cases s w vs cf now with hs | ⟨sessions, hsess, hs⟩
  · rw [hs]
    exact ⟨id, fun _ _ => rfl, id⟩
  · rw [hs]
    refine ⟨?_, ?_, ?_⟩
    · intro hwf z
      by_cases hzw : z = w
      · subst hzw
        show ((dictInsert s.zone_tracked_ids z _).lookup z).isSome ↔
          ((dictInsert s.seen_track_ids z _).lookup z).isSome
        rw [lookup_dictInsert_self, lookup_dictInsert_self]
        exact Iff.rfl
      · show ((dictInsert s.zone_tracked_ids w _).lookup z).isSome ↔
          ((dictInsert s.seen_track_ids w _).lookup z).isSome
        rw [lookup_dictInsert_ne _ _ _ _ hzw, lookup_dictInsert_ne _ _ _ _ hzw]
        exact hwf z
    · intro z hzw
      show ((dictInsert s.seen_track_ids w _).lookup z).getD [] = seenOf s z
      rw [lookup_dictInsert_ne _ _ _ _ hzw]
      rfl
    · intro h z l hl
      by_cases hzw : z = w
      · subst hzw
        rw [show ({ s with
            zone_tracked_ids := dictInsert s.zone_tracked_ids z
              (processExit ((vs.filterMap id).filter (fun t => 0 ≤ t))
                s.exit_debounce_frames now sessions).2.1,
            recent_exits := dictInsert s.recent_exits z
              (((s.recent_exits.lookup z).getD []) ++
                (processExit ((vs.filterMap id).filter (fun t => 0 ≤ t))
                  s.exit_debounce_frames now sessions).2.2.1),
            seen_track_ids := dictInsert s.seen_track_ids z
              (((s.seen_track_ids.lookup z).getD []).filter
                (fun t => ¬ (processExit ((vs.filterMap id).filter (fun t => 0 ≤ t))
                  s.exit_debounce_frames now sessions).2.2.2.contains t)) } :
            ParkState).zone_tracked_ids = dictInsert s.zone_tracked_ids z
              (processExit ((vs.filterMap id).filter (fun t => 0 ≤ t))
                s.exit_debounce_frames now sessions).2.1 from rfl,
          lookup_dictInsert_self] at hl
        cases hl
        exact List.Nodup.sublist
          (processExit_keys_sublist _ _ _ sessions) (h z sessions hsess)
      · rw [show ({ s with
            zone_tracked_ids := dictInsert s.zone_tracked_ids w
              (processExit ((vs.filterMap id).filter (fun t => 0 ≤ t))
                s.exit_debounce_frames now sessions).2.1,
            recent_exits := dictInsert s.recent_exits w
              (((s.recent_exits.lookup w).getD []) ++
                (processExit ((vs.filterMap id).filter (fun t => 0 ≤ t))
                  s.exit_debounce_frames now sessions).2.2.1),
            seen_track_ids := dictInsert s.seen_track_ids w
              (((s.seen_track_ids.lookup w).getD []).filter
                (fun t => ¬ (processExit ((vs.filterMap id).filter (fun t => 0 ≤ t))
                  s.exit_debounce_frames now sessions).2.2.2.contains t)) } :
            ParkState).zone_tracked_ids = dictInsert s.zone_tracked_ids w
              (processExit ((vs.filterMap id).filter (fun t => 0 ≤ t))
                s.exit_debounce_frames now sessions).2.1 from rfl,
          lookup_dictInsert_ne _ _ _ _ hzw] at hl
        exact h z l hl

/-- C2: per-zone session tables never acquire duplicate track-id keys (at
most one active session per (zone, track id)); an entry that returns true
puts the track id into the zone's seen set; and as long as no
`check_parking_exit` call removes the track id from the zone's seen set,
every further `check_parking_entry` for that (zone, track id) returns
false. -/
theorem parking_single_session_no_reentry :
    (∀ (s : ParkState) (op : POp), SessionsNodup s → SessionsNodup (pstep s op)) ∧
    (∀ (s : ParkState) (z : String) (d : Detection) (tid : Int) (stat : Option ℚ)
        (thr now : ℚ),
        d.track_id = some tid →
        pentryFlag (check_parking_entry s z d stat thr now) = true →
        tid ∈ seenOf (pentryState s (check_parking_entry s z d stat thr now)) z) ∧
    (∀ (z : String) (tid : Int) (ops : List POp) (s : ParkState),
        PWF s → tid ∈ seenOf s z →
        (∀ pre op post, ops = pre ++ op :: post → isExitOn z op →
            tid ∈ seenOf (List.foldl pstep s (pre ++ [op])) z) →
        ∀ pre op post, ops = pre ++ op :: post → isEntryOn z tid op →
            entryRes (List.foldl pstep s pre) op = false) := by
  refine ⟨?_, ?_, ?_⟩
  · intro s op
    cases op with
    | entry w d st th nw => exact (pentry_props s w d st th nw).2.2.1
    | exitCall w vv cc nn => exact (pexit_props s w vv cc nn).2.2
  · intro s z d tid stat thr now htid hflag
    exact (pentry_props s z d stat thr now).2.2.2 tid htid hflag
  · intro z tid ops
    induction ops with
    | nil =>
        intro s _ _ _ pre op post heq _
        exfalso
        cases pre <;> simp at heq
    | cons o ops ih =>
        intro s hwf hseen hexit pre op post heq hentry
        cases pre with
        | nil =>
            injection heq with h1 _
            subst h1
            cases o with
            | entry w dd st th nw =>
                obtain ⟨hw, htid⟩ := hentry
                subst hw
                exact pentry_false_of_seen s _ dd tid st th nw hwf hseen htid
            | exitCall _ _ _ _ => exact absurd hentry (by simp [isEntryOn])
        | cons p0 pre' =>
            injection heq with h1 h2
            subst h1
            have hwf' : PWF (pstep s o) := by
              cases o with
              | entry w dd st th nw => exact (pentry_props s w dd st th nw).1 hwf
              | exitCall w vv cc nn => exact (pexit_props s w vv cc nn).1 hwf
            have hseen' : tid ∈ seenOf (pstep s o) z := by
              cases o with
              | entry w dd st th nw =>
                  exact (pentry_props s w dd st th nw).2.1 hwf z tid hseen
              | exitCall w vv cc nn =>
                  by_cases hzw : w = z
                  · subst hzw
                    have := hexit [] (POp.exitCall w vv cc nn) ops rfl rfl
                    rw [List.nil_append] at this
                    simpa [List.foldl_cons] using this
                  · show tid ∈ seenOf (pexitState s (check_parking_exit s w vv cc nn)) z
                    rw [(pexit_props s w vv cc nn).2.1 z (fun h => hzw h.symm)]
                    exact hseen
            have hexit' : ∀ pre2 op2 post2, ops = pre2 ++ op2 :: post2 →
                isExitOn z op2 →
                tid ∈ seenOf (List.foldl pstep (pstep s o) (pre2 ++ [op2])) z := by
              intro pre2 op2 post2 heq2 hop2
              have hd : o :: ops = (o :: pre2) ++ op2 :: post2 := by
                rw [List.cons_append, heq2]
              have := hexit (o :: pre2) op2 post2 hd hop2
              rw [List.cons_append, List.foldl_cons] at this
              exact this
            rw [List.foldl_cons]
            exact ih (pstep s o) hwf' hseen' hexit' pre' op post h2 hentry

/-- Witness for `parking_single_session_no_reentry`: a concrete state with
track 5 already seen in zone `"z"` keeps duplicate-free sessions across a
step, a true entry marks the track seen, and an entry for the seen pair
returns false along an exit-free trace. -/
theorem parking_single_session_no_reentry_witness :
    SessionsNodup (pstep pcex0 (POp.entry "z" pcexDet (some 6) 5 0)) ∧
    (5 : Int) ∈ seenOf (pentryState pcex0
      (check_parking_entry pcex0 "z" pcexDet (some 6) 5 0)) "z" ∧
    entryRes (List.foldl pstep pw0 []) (POp.entry "z" pcexDet (some 99) 5 1) = false := by
  refine ⟨?_, ?_, ?_⟩
  · refine parking_single_session_no_reentry.1 pcex0 _ ?_
    intro z l h
    simp [pcex0] at h
  · refine parking_single_session_no_reentry.2.1 pcex0 "z" pcexDet 5 (some 6) 5 0 rfl ?_
    norm_num [pentryFlag, check_parking_entry, initZone, recordEntry, pcex0, pcexDet,
      dictInsert, setAdd]
  · refine parking_single_session_no_reentry.2.2 "z" 5
      [POp.entry "z" pcexDet (some 99) 5 1] pw0 ?_ ?_ ?_
      [] (POp.entry "z" pcexDet (some 99) 5 1) [] rfl ⟨rfl, rfl⟩
    · intro z
      by_cases hz : z = "z"
      · subst hz
        simp [pw0, List.lookup_cons]
      · simp [pw0, List.lookup_cons, beq_eq_false_iff_ne.mpr hz]
    · simp [seenOf, pw0, List.lookup_cons]
    · intro pre op post heq hop
      cases pre with
      | nil =>
          injection heq with h1 _
          rw [← h1] at hop
          exact absurd hop (by simp [isExitOn])
      | cons a pre' =>
          injection heq with _ h2
          exact absurd h2 (by simp)

end EdgeDetection
